import Mathlib

/-!
# Verification of the ordered content extraction & image pipeline

Shallow embedding of the content-extraction core of `src/main.py`
(classes `TiebaPostScraperAPI` and `WeChatArticleScraperAPI` plus the
`/tieba/scrape` route slice).  HTML documents are modelled as an
abstract node tree (`Html`); BeautifulSoup operations (`select`,
`find_all`, `get_text`, `descendants`) are modelled over that tree.
String operations mirror the Python ones on code-point level
(`len` = `String.length`, `in` = substring containment via `substrOf`,
`strip` = `pyStrip`); they are implemented by structural recursion over
character lists so that concrete runs reduce inside the kernel.  Network and filesystem effects are modelled by
explicit oracles (`fetch : String → Option Nat` giving the HTTP status
or `none` for an exception/timeout; a watermark oracle for the OpenCV
step).  Wall-clock timestamp fields of result dictionaries are omitted.
-/

/-- Model of a parsed HTML node (a BeautifulSoup `Tag` or
`NavigableString`): `text` is a string node, `elem name classes attrs
children` a tag with its `class` list and remaining attributes. -/
inductive Html where
  | text (s : String)
  | elem (name : String) (classes : List String) (attrs : List (String × String)) (children : List Html)
deriving Repr

/-- The children of a node (a string node has none). -/
def Html.childrenOf : Html → List Html
  | .text _ => []
  | .elem _ _ _ ch => ch

/-- The tag name of a node, `none` for a string node (`.name` is `None`
for `NavigableString`s). -/
def Html.nameOf : Html → Option String
  | .text _ => none
  | .elem n _ _ _ => some n

/-- The class list of a node (`tag.get('class', [])`). -/
def Html.classesOf : Html → List String
  | .text _ => []
  | .elem _ c _ _ => c

/-- Attribute lookup, `tag.get(a)`. -/
def Html.getAttr : Html → String → Option String
  | .text _, _ => none
  | .elem _ _ attrs _, a => (attrs.find? (fun p => p.1 == a)).map (·.2)

/-- Attribute lookup with default, `tag.get(a, '')`. -/
def Html.getAttrD (h : Html) (a : String) : String :=
  (h.getAttr a).getD ""

mutual
/-- All descendant nodes of a node in document (preorder) order,
excluding the node itself — BeautifulSoup's `.descendants`. -/
def Html.descendants : Html → List Html
  | .text _ => []
  | .elem _ _ _ ch => Html.descList ch

/-- Descendants of a forest: each root followed by its own subtree. -/
def Html.descList : List Html → List Html
  | [] => []
  | c :: cs => c :: (Html.descendants c ++ Html.descList cs)
end

mutual
/-- The string nodes inside a subtree, in document order (the node
itself included when it is a string). -/
def Html.strings : Html → List String
  | .text s => [s]
  | .elem _ _ _ ch => Html.stringsList ch

/-- String nodes of a forest. -/
def Html.stringsList : List Html → List String
  | [] => []
  | c :: cs => Html.strings c ++ Html.stringsList cs
end

/-- Contiguous-sublist test on character lists. -/
def listIsInfix (sub : List Char) : List Char → Bool
  | [] => sub.isEmpty
  | c :: rest => sub.isPrefixOf (c :: rest) || listIsInfix sub rest

/-- Substring containment, the Python `sub in s` test on strings. -/
def substrOf (sub s : String) : Bool :=
  listIsInfix sub.toList s.toList

/-- Python `str.startswith(pre)`.  (Structural replacement for
`String.startsWith`, which the kernel cannot reduce.) -/
def pyStartsWith (s pre : String) : Bool :=
  pre.toList.isPrefixOf s.toList

/-- Python `str.endswith(suf)`. -/
def pyEndsWith (s suf : String) : Bool :=
  suf.toList.reverse.isPrefixOf s.toList.reverse

/-- Python `str.strip()` (ASCII whitespace). -/
def pyStrip (s : String) : String :=
  String.mk (((s.toList.dropWhile Char.isWhitespace).reverse.dropWhile
    Char.isWhitespace).reverse)

/-- Python `str.rstrip(chars)` for a character predicate. -/
def pyRStrip (s : String) (p : Char → Bool) : String :=
  String.mk ((s.toList.reverse.dropWhile p).reverse)

/-- ASCII lower-casing of one character. -/
def lowerChar (c : Char) : Char :=
  if 'A' ≤ c ∧ c ≤ 'Z' then Char.ofNat (c.toNat + 32) else c

/-- Python `str.lower()` (ASCII range; the inputs lower-cased by the
scraper are URLs and ASCII keywords). -/
def pyLower (s : String) : String :=
  String.mk (s.toList.map lowerChar)

/-- Splitting worker: accumulate the current piece (reversed) and emit
a piece at each occurrence of the (nonempty) separator; `fuel` bounds
the recursion and is always sufficient at `length + 1`. -/
def splitOnAux (sep : List Char) : Nat → List Char → List Char → List (List Char)
  | _, acc, [] => [acc.reverse]
  | 0, acc, l => [acc.reverse ++ l]
  | fuel + 1, acc, c :: rest =>
      if sep.isPrefixOf (c :: rest) then
        acc.reverse :: splitOnAux sep fuel [] ((c :: rest).drop sep.length)
      else splitOnAux sep fuel (c :: acc) rest

/-- Python `str.split(sep)` for a nonempty separator (also the
semantics of `String.splitOn`). -/
def pySplit (s sep : String) : List String :=
  (splitOnAux sep.toList (s.toList.length + 1) [] s.toList).map String.mk

/-- Python `str.replace(pat, rep)` for a nonempty pattern. -/
def pyReplace (s pat rep : String) : String :=
  rep.intercalate (pySplit s pat)

/-- Whitespace-splitting worker for Python `str.split()` with no
argument (empty runs dropped). -/
def wsSplitAux (cur : List Char) : List Char → List String
  | [] => if cur.isEmpty then [] else [String.mk cur.reverse]
  | c :: rest =>
      if Char.isWhitespace c then
        if cur.isEmpty then wsSplitAux [] rest
        else String.mk cur.reverse :: wsSplitAux [] rest
      else wsSplitAux (c :: cur) rest

/-- Python `str.split()` with no argument: split on whitespace runs and
drop empty pieces. -/
def pyWsSplit (s : String) : List String :=
  wsSplitAux [] s.toList

/-- `' '.join(text.split())`: collapse whitespace runs to single
spaces and trim the ends. -/
def collapseWs (s : String) : String :=
  " ".intercalate (pyWsSplit s)

/-- Single-pass decoder for the HTML character entities relevant here
(the ones the serializer in this model produces plus `&quot;`); models
`html.unescape` restricted to those entities. -/
def unescapeChars : List Char → List Char
  | '&' :: 'a' :: 'm' :: 'p' :: ';' :: rest => '&' :: unescapeChars rest
  | '&' :: 'l' :: 't' :: ';' :: rest => '<' :: unescapeChars rest
  | '&' :: 'g' :: 't' :: ';' :: rest => '>' :: unescapeChars rest
  | '&' :: 'q' :: 'u' :: 'o' :: 't' :: ';' :: rest => '"' :: unescapeChars rest
  | c :: rest => c :: unescapeChars rest
  | [] => []

/-- `html.unescape` on the entity set of `unescapeChars`. -/
def htmlUnescape (s : String) : String :=
  String.mk (unescapeChars s.toList)

/-- Minimal HTML escaping applied by `str(tag)` to text nodes
(BeautifulSoup's `minimal` formatter: `&`, `<`, `>`). -/
def escapeMinimal (s : String) : String :=
  pyReplace (pyReplace (pyReplace s "&" "&amp;") "<" "&lt;") ">" "&gt;"

/-- Python `str.isdigit()` restricted to ASCII digits: nonempty and all
digits. -/
def isAllDigits (s : String) : Bool :=
  s ≠ "" && s.toList.all Char.isDigit

/-- Python `str.endswith(tuple)`. -/
def endsWithAny (s : String) (suffixes : List String) : Bool :=
  suffixes.any (fun suf => pyEndsWith s suf)

/-- First non-empty value out of a chain of optional attribute reads —
the Python `a.get(x) or a.get(y) or a.get(z)` idiom (where `''` is
falsy). -/
def firstNonEmpty (l : List (Option String)) : Option String :=
  (l.filterMap id).find? (· ≠ "")

/-! ## Content nodes and the text validity filter -/

/-- A content element as built by `extract_post_content`: a dict with
`type` `'text'` (fields `content`, `tag`) or `'image'` (fields `src`,
`alt`, `title`). -/
inductive ContentEl where
  | textEl (content tag : String)
  | imageEl (src alt title : String)
deriving Repr, DecidableEq

/-- The contents of the text elements of a sequence, in order. -/
def textsOf (els : List ContentEl) : List String :=
  els.filterMap fun e => match e with
    | .textEl c _ => some c
    | _ => none

/-- The resolved sources of the image elements of a sequence. -/
def imgSrcsOf (els : List ContentEl) : List String :=
  els.filterMap fun e => match e with
    | .imageEl s _ _ => some s
    | _ => none

/-- The `any(el['type'] == 'image' and el['src'] == img_src ...)`
duplicate test. -/
def hasImgWithSrc (els : List ContentEl) (src : String) : Bool :=
  els.any fun e => match e with
    | .imageEl s _ _ => s == src
    | _ => false

/-- The fixed UI-boilerplate phrase list of `_is_valid_text_content`. -/
def filterPatterns : List String :=
  ["点击展开,查看完整图片", "收起回复", "查看全部", "显示全部楼层",
   "只看楼主", "来自", "使用", "客户端", "更多", "APP", "手机版",
   "该楼层疑似违规", "隐藏此楼", "查看此楼", "贴吧", "百度", "登录", "注册"]

/-- The punctuation singleton list of `_is_valid_text_content`. -/
def punctSingletons : List String :=
  [".", "。", "!", "！", "?", "？", ",", "，", "；", ";"]

/-- The single-character blacklist of `_is_valid_text_content`. -/
def singleCharBlacklist : List String := ["回复", "举报", "删除"]

/-- `TiebaPostScraperAPI._is_valid_text_content(text, processed_texts)`. -/
def isValidTextContent (t : String) (processed : List String) : Bool :=
  if t.length < 3 then false
  else if processed.contains t then false
  else if filterPatterns.any (fun p => substrOf p t) then false
  else if isAllDigits t || pyStartsWith t "http" || punctSingletons.contains t then false
  else if (pyStrip t).length == 1 && singleCharBlacklist.contains (pyStrip t) then false
  else true

/-- `TiebaPostScraperAPI._clean_text_content`: whitespace collapsing,
entity decoding, rejection of quote/mention-marker prefixes (`None`
result), stripping of trailing filler characters. -/
def cleanTextContent (t : String) : Option String :=
  let t1 := collapseWs t
  let t2 := htmlUnescape t1
  if pyStartsWith t2 "回复" || pyStartsWith t2 "@" || pyStartsWith t2 "#" then none
  else some (pyStrip (pyRStrip t2 (fun c => c ∈ ['_', '-', '=', '+'])))

/-! ## URL resolution and image eligibility -/

/-- Relative-URL resolution in `extract_post_content` (lines 621-625):
protocol-relative gets `https:`, root-relative gets the hardcoded
`https://tieba.baidu.com` prefix. -/
def resolveTiebaUrl (s : String) : String :=
  if pyStartsWith s "//" then "https:" ++ s
  else if pyStartsWith s "/" then "https://tieba.baidu.com" ++ s
  else s

/-- Relative-URL resolution in the WeChat `parse_html_content`
(lines 1229-1233): root-relative gets `https://mp.weixin.qq.com`. -/
def resolveWechatUrl (s : String) : String :=
  if pyStartsWith s "//" then "https:" ++ s
  else if pyStartsWith s "/" then "https://mp.weixin.qq.com" ++ s
  else s

/-- The Tieba image allow-check: resolved URL on a known Baidu media
host, or the `BDE_Image` class marker. -/
def isAllowedTiebaImg (src : String) (classes : List String) : Bool :=
  (substrOf "baidu.com" src &&
    (substrOf "imgsrc.baidu.com" src || substrOf "hiphotos.baidu.com" src ||
      substrOf "tiebapic.baidu.com" src)) || classes.contains "BDE_Image"

/-- `img.get('src') or img.get('data-original') or img.get('original')`. -/
def tiebaImgSrc (img : Html) : Option String :=
  firstNonEmpty [img.getAttr "src", img.getAttr "data-original", img.getAttr "original"]

/-! ## Selector engine

Model of the CSS-selector subset used by the scraper (class selectors,
tag+class, attribute-substring, attribute-existence, `:first-child`,
one-level descendant combinators).  `select` searches the strict
descendants of the node it is called on, in document order, as
BeautifulSoup's `select` does; ancestor tests are resolved inside the
searched tree. -/

/-- A simple (single-compound) selector. -/
inductive SimpleSel where
  | cls (c : String)
  | tagCls (t c : String)
  | clsContains (sub : String)
  | tagAttrContains (t a sub : String)
  | clsAttrContains (c a sub : String)
  | tagAttrExists (t a : String)

/-- The serialized `class` attribute (classes joined by single
spaces), for `[class*=...]` matching. -/
def classStr (h : Html) : String := " ".intercalate h.classesOf

/-- Does a node match a simple selector? -/
def SimpleSel.hit : SimpleSel → Html → Bool
  | _, .text _ => false
  | .cls c, h => h.classesOf.contains c
  | .tagCls t c, h => h.nameOf == some t && h.classesOf.contains c
  | .clsContains sub, h => substrOf sub (classStr h)
  | .tagAttrContains t a sub, h =>
      h.nameOf == some t && (match h.getAttr a with
        | some v => substrOf sub v
        | none => false)
  | .clsAttrContains c a sub, h =>
      h.classesOf.contains c && (match h.getAttr a with
        | some v => substrOf sub v
        | none => false)
  | .tagAttrExists t a, h => h.nameOf == some t && (h.getAttr a).isSome

/-- A selector: simple, simple`:first-child`, or a one-level descendant
combination. -/
inductive Sel where
  | simple (s : SimpleSel)
  | firstChild (s : SimpleSel)
  | desc (anc : SimpleSel) (target : Sel)

/-- A candidate node with its element ancestors (nearest first) and its
`:first-child` status. -/
structure SelCtx where
  node : Html
  ancestors : List Html
  isFirst : Bool

mutual
/-- The context of an element node (with `isFirst` its `:first-child`
status) followed by the contexts of its descendants. -/
def ctxNode (anc : List Html) (isFirst : Bool) : Html → List SelCtx
  | .text _ => []
  | .elem n c a ch =>
      ⟨.elem n c a ch, anc, isFirst⟩ :: ctxForest (.elem n c a ch :: anc) true ch

/-- Contexts of all element descendants of a forest, in document order.
`first` is true while no element sibling has been seen yet. -/
def ctxForest (anc : List Html) (first : Bool) : List Html → List SelCtx
  | [] => []
  | .text _ :: rest => ctxForest anc first rest
  | e :: rest => ctxNode anc first e ++ ctxForest anc false rest
end

/-- Does a selector match a candidate context? -/
def Sel.hitCtx : Sel → SelCtx → Bool
  | .simple s, ctx => s.hit ctx.node
  | .firstChild s, ctx => s.hit ctx.node && ctx.isFirst
  | .desc a target, ctx => target.hitCtx ctx && ctx.ancestors.any a.hit

/-- `node.select(sel)`: matching element descendants in document order. -/
def select (root : Html) (sel : Sel) : List Html :=
  ((ctxForest [] true root.childrenOf).filter sel.hitCtx).map (·.node)

/-- `node.select_one(sel)`. -/
def selectOne (root : Html) (sel : Sel) : Option Html :=
  (select root sel).head?

/-- `node.find_all('img')`: element descendants named `img`. -/
def findAllImgs (h : Html) : List Html :=
  h.descendants.filter (fun n => n.nameOf == some "img")

/-! ## `get_text` variants -/

/-- `node.get_text()`: all descendant strings joined. -/
def getTextRaw (h : Html) : String := String.join h.strings

/-- `node.get_text(strip=True)`: each string stripped, empties dropped,
joined without separator. -/
def getTextStripJoin (h : Html) : String :=
  String.join (h.strings.map pyStrip)

/-- `node.get_text(separator=' ', strip=True)`: stripped strings joined
by single spaces, empties dropped. -/
def getTextSpaceSep (h : Html) : String :=
  " ".intercalate ((h.strings.map pyStrip).filter (· ≠ ""))

/-! ## The break-segmented (primary) walk of `extract_post_content`

The code serializes the content element (`str(content_elem)`), turns
`<br...>` tags into the marker `|||BR|||`, strips every other tag with
`re.sub(r'<[^>]+>', '')`, and splits on the marker.  On the tree model
that composite is: a text node contributes its minimally-escaped text,
a tag whose name starts with `br` contributes the marker (its opening
tag matches `<br[^>]*>`) followed by its children, any other tag
contributes its children only. -/

mutual
/-- The marker-for-`<br>`, tags-stripped serialization of a node. -/
def Html.brMarked : Html → String
  | .text s => escapeMinimal s
  | .elem n _ _ ch =>
      (if pyStartsWith n "br" then "|||BR|||" else "") ++ Html.brMarkedList ch

/-- `brMarked` over a forest. -/
def Html.brMarkedList : List Html → String
  | [] => ""
  | c :: cs => Html.brMarked c ++ Html.brMarkedList cs
end

/-- The `<br>`-delimited text segments of the serialized content
element (`text_content.split('|||BR|||')`). -/
def textParts (h : Html) : List String :=
  pySplit h.brMarked "|||BR|||"

/-- State of the primary interleaving loop: accumulated elements, the
`processed_texts` set (as a duplicate-free list), and `img_index`. -/
structure ExtractSt where
  els : List ContentEl
  processed : List String
  imgIdx : Nat
deriving Repr

/-- One image-emission attempt of the primary loop (lines 617-648):
resolve the source, require the Baidu allow-check, require the source
not already emitted; `some` means the image is appended (and only then
is `img_index` advanced in the main loop). -/
def tryEmitTiebaImg (img : Html) (els : List ContentEl) : Option ContentEl :=
  match tiebaImgSrc img with
  | none => none
  | some raw =>
      let src := resolveTiebaUrl raw
      if isAllowedTiebaImg src img.classesOf then
        if hasImgWithSrc els src then none
        else some (.imageEl src (img.getAttrD "alt") (img.getAttrD "title"))
      else none

/-- The text half of one primary-loop iteration: strip the part, check
validity against the seen-set, clean, deduplicate, append. -/
def primaryTextStep (st : ExtractSt) (part0 : String) : ExtractSt :=
  let part := pyStrip part0
  if part ≠ "" ∧ isValidTextContent part st.processed then
    match cleanTextContent part with
    | some c =>
        if c ≠ "" ∧ ¬ st.processed.contains c then
          { st with els := st.els ++ [.textEl c "text"],
                    processed := st.processed ++ [c] }
        else st
    | none => st
  else st

/-- The image slot of one primary-loop iteration: attempt the image at
`img_index`, advancing the index only on emission. -/
def primaryImgStep (imgs : List Html) (st : ExtractSt) : ExtractSt :=
  match imgs[st.imgIdx]? with
  | none => st
  | some img =>
      match tryEmitTiebaImg img st.els with
      | some e => { st with els := st.els ++ [e], imgIdx := st.imgIdx + 1 }
      | none => st

/-- One iteration of the primary loop over a text part: text validity,
cleaning and deduplication, then the image slot for the current
`img_index`. -/
def primaryStep (imgs : List Html) (st : ExtractSt) (part0 : String) : ExtractSt :=
  primaryImgStep imgs (primaryTextStep st part0)

/-- The trailing `while img_index < len(img_elements)` loop
(lines 651-679): each remaining image is attempted once, the index
always advances. -/
def emitRemaining (els : List ContentEl) : List Html → List ContentEl
  | [] => els
  | img :: rest =>
      match tryEmitTiebaImg img els with
      | some e => emitRemaining (els ++ [e]) rest
      | none => emitRemaining els rest

/-- The full primary (break-segmented) extraction over a content
element, threading `processed_texts`. -/
def primaryExtract (ce : Html) (processed0 : List String) : ExtractSt :=
  let imgs := findAllImgs ce
  let st := (textParts ce).foldl (primaryStep imgs) ⟨[], processed0, 0⟩
  { st with els := emitRemaining st.els (imgs.drop st.imgIdx) }

/-! ## The element-walk backup of `extract_post_content` (lines 681-745) -/

/-- `find_all(['p', 'div', 'span', 'img', 'br'])`, falling back to the
content element itself when nothing matches. -/
def elemWalkNodes (ce : Html) : List Html :=
  let l := ce.descendants.filter fun n =>
    n.nameOf == some "p" || n.nameOf == some "div" || n.nameOf == some "span" ||
      n.nameOf == some "img" || n.nameOf == some "br"
  if l.isEmpty then [ce] else l

/-- One iteration of the element walk: images via the same
resolution/allow/dedup logic, `p`/`div`/`span` elements without an
image descendant as text candidates. -/
def elemWalkStep (st : List ContentEl × List String) (node : Html) :
    List ContentEl × List String :=
  if node.nameOf == some "img" then
    match tryEmitTiebaImg node st.1 with
    | some e => (st.1 ++ [e], st.2)
    | none => st
  else if node.nameOf == some "p" || node.nameOf == some "div" ||
      node.nameOf == some "span" then
    if ¬ (findAllImgs node).isEmpty then st
    else
      let text := getTextStripJoin node
      if isValidTextContent text st.2 then
        match cleanTextContent text with
        | some c =>
            if c ≠ "" ∧ ¬ st.2.contains c then
              (st.1 ++ [.textEl c ((node.nameOf).getD "")], st.2 ++ [c])
            else st
        | none => st
      else st
  else st

/-- The element-walk backup over a content element. -/
def elemWalkExtract (ce : Html) (processed0 : List String) :
    List ContentEl × List String :=
  (elemWalkNodes ce).foldl elemWalkStep ([], processed0)

/-! ## `_fallback_content_extraction` (lines 757-832) -/

/-- The prioritized sentence delimiters of the fallback's method 1. -/
def sentenceDelims : List String := ["。", "！", "？", "\n\n", "\r\n"]

/-- The terminal punctuation marks checked before appending `。`. -/
def terminalPunct : List String := ["。", "！", "？", ".", "!", "?"]

/-- One sentence of the fallback's method 1: length gate, terminal
punctuation completion, validity filter, cleaning, deduplication. -/
def sentenceStep (st : List ContentEl × List String) (s0 : String) :
    List ContentEl × List String :=
  let s1 := pyStrip s0
  if s1 ≠ "" ∧ s1.length > 5 then
    let s := if endsWithAny s1 terminalPunct then s1 else s1 ++ "。"
    if isValidTextContent s st.2 then
      match cleanTextContent s with
      | some c =>
          if c ≠ "" ∧ ¬ st.2.contains c then
            (st.1 ++ [.textEl c "p"], st.2 ++ [c])
          else st
      | none => st
    else st
  else st

/-- Method 1 of the fallback: split the flattened text on the first
present delimiter and filter the pieces; only runs when the flattened
text is longer than 20 characters. -/
def sentenceSplitExtract (ce : Html) (processed0 : List String) :
    List ContentEl × List String :=
  let direct := getTextSpaceSep ce
  if direct ≠ "" ∧ direct.length > 20 then
    let sentences :=
      match sentenceDelims.find? (fun d => substrOf d direct) with
      | some d => pySplit direct d
      | none => [direct]
    sentences.foldl sentenceStep ([], processed0)
  else ([], processed0)

/-- One text node of the fallback's method 2 (liberal walk): length
greater than 3, no `script`/`style`/`noscript` keyword, cleaning,
deduplication, cleaned length greater than 3. -/
def liberalStep (st : List ContentEl × List String) (s0 : String) :
    List ContentEl × List String :=
  let t := pyStrip s0
  if t ≠ "" ∧ t.length > 3 then
    if ["script", "style", "noscript"].any (fun p => substrOf p (pyLower t)) then st
    else
      match cleanTextContent t with
      | some c =>
          if c ≠ "" ∧ ¬ st.2.contains c ∧ c.length > 3 then
            (st.1 ++ [.textEl c "text"], st.2 ++ [c])
          else st
      | none => st
  else st

/-- Method 2 of the fallback: every `NavigableString` descendant of the
content element in document order. -/
def liberalExtract (ce : Html) (processed0 : List String) :
    List ContentEl × List String :=
  ((ce.descendants.filterMap fun n => match n with
      | .text s => some s
      | _ => none)).foldl liberalStep ([], processed0)

/-- `_fallback_content_extraction`: method 1, then method 2 only when
method 1 produced nothing (method 3 only logs). -/
def fallbackExtract (ce : Html) (processed0 : List String) : List ContentEl :=
  let r1 := sentenceSplitExtract ce processed0
  if r1.1.isEmpty then (liberalExtract ce r1.2).1 else r1.1

/-! ## `extract_post_content` (lines 557-755) -/

/-- The ordered content-container selectors. -/
def contentSelectors : List Sel :=
  [.simple (.cls "d_post_content"), .simple (.cls "p_content"),
   .simple (.cls "post_content"), .simple (.cls "content")]

/-- Locate the content container inside a post element, defaulting to
the post element itself. -/
def selectContentElem (postElem : Html) : Html :=
  match contentSelectors.findSome? (selectOne postElem) with
  | some e => e
  | none => postElem

/-- The element sequence produced by `extract_post_content`: primary
break-segmented walk, element-walk backup when it is empty, fallback
cascade when both are empty, threading `processed_texts` throughout. -/
def extractPostContentEls (postElem : Html) : List ContentEl :=
  let ce := selectContentElem postElem
  let st := primaryExtract ce []
  let r2 := if st.els.isEmpty then elemWalkExtract ce st.processed
            else (st.els, st.processed)
  if r2.1.isEmpty then fallbackExtract ce r2.2 else r2.1

/-- `extract_post_content`'s triple result: the text paragraphs, the
image elements, and the mixed element sequence. -/
def extractPostContent (postElem : Html) :
    List String × List ContentEl × List ContentEl :=
  let els := extractPostContentEls postElem
  (textsOf els, els.filter (fun e => match e with
      | .imageEl _ _ _ => true
      | _ => false), els)

/-! ## The standalone strategies (for the cascade theorem) -/

/-- The primary strategy run on its own (empty seen-set). -/
def primaryEls (postElem : Html) : List ContentEl :=
  (primaryExtract (selectContentElem postElem) []).els

/-- The element-walk strategy run on its own. -/
def elemWalkEls (postElem : Html) : List ContentEl :=
  (elemWalkExtract (selectContentElem postElem) []).1

/-- The sentence-split strategy run on its own. -/
def sentenceEls (postElem : Html) : List ContentEl :=
  (sentenceSplitExtract (selectContentElem postElem) []).1

/-- The liberal-text-walk strategy run on its own. -/
def liberalEls (postElem : Html) : List ContentEl :=
  (liberalExtract (selectContentElem postElem) []).1

/-! ## The WeChat walker, `WeChatArticleScraperAPI.parse_html_content`
(lines 1193-1308) -/

/-- A WeChat content element: like `ContentEl` but carrying the `order`
field assigned at append time. -/
inductive WxEl where
  | textEl (content tag : String) (ord : Nat)
  | imageEl (src alt title : String) (ord : Nat)
deriving Repr, DecidableEq

/-- The `order` field of a WeChat element. -/
def WxEl.order : WxEl → Nat
  | .textEl _ _ o => o
  | .imageEl _ _ _ o => o

/-- The text content of a WeChat text element. -/
def wxTextsOf (els : List WxEl) : List String :=
  els.filterMap fun e => match e with
    | .textEl c _ _ => some c
    | _ => none

/-- The sources of the WeChat image elements. -/
def wxImgSrcsOf (els : List WxEl) : List String :=
  els.filterMap fun e => match e with
    | .imageEl s _ _ _ => some s
    | _ => none

/-- The WeChat duplicate-image test. -/
def wxHasImgSrc (els : List WxEl) (src : String) : Bool :=
  els.any fun e => match e with
    | .imageEl s _ _ _ => s == src
    | _ => false

/-- Element names treated as text candidates by the WeChat walker. -/
def wxTextNames : List String :=
  ["p", "div", "section", "span", "h1", "h2", "h3", "h4", "h5", "h6"]

/-- Element names counting as block children
(`element.find(['p','div','section','h1'..'h6'])`). -/
def wxBlockNames : List String :=
  ["p", "div", "section", "h1", "h2", "h3", "h4", "h5", "h6"]

/-- State of the WeChat walk: `content_elements`, the separate `images`
list, and `processed_texts`. -/
structure WxSt where
  els : List WxEl
  images : List WxEl
  processed : List String
deriving Repr

/-- One iteration of `for element in content_elem.find_all(recursive=True)`
in the WeChat `parse_html_content`. -/
def wxStep (st : WxSt) (node : Html) : WxSt :=
  if node.nameOf == some "img" then
    match firstNonEmpty [node.getAttr "src", node.getAttr "data-src"] with
    | none => st
    | some raw =>
        let src := resolveWechatUrl raw
        if wxHasImgSrc st.els src then st
        else
          let e := WxEl.imageEl src (node.getAttrD "alt") (node.getAttrD "title")
            st.els.length
          { st with els := st.els ++ [e], images := st.images ++ [e] }
  else if wxTextNames.any (fun n => node.nameOf == some n) then
    let hasBlockChildren := node.descendants.any fun d =>
      wxBlockNames.any (fun n => d.nameOf == some n)
    if hasBlockChildren ∧
        (node.nameOf == some "div" || node.nameOf == some "section") then st
    else if ¬ (findAllImgs node).isEmpty then st
    else
      let text := pyStrip (getTextRaw node)
      if text ≠ "" ∧ text.length > 10 ∧ ¬ st.processed.contains text ∧
          ¬ pyStartsWith text "http" ∧ ¬ substrOf "阅读原文" text ∧
          ¬ substrOf "点击查看" text then
        let isSubstringOfExisting := st.processed.any fun et =>
          et.length > text.length && (substrOf text et || substrOf et text)
        if isSubstringOfExisting then st
        else
          { st with
            els := st.els ++ [.textEl text ((node.nameOf).getD "") st.els.length],
            processed := st.processed ++ [text] }
      else st
  else st

/-- Stable insertion of an element after every element with a
less-or-equal `order` key. -/
def insByOrder (e : WxEl) : List WxEl → List WxEl
  | [] => [e]
  | x :: xs => if x.order ≤ e.order then x :: insByOrder e xs else e :: x :: xs

/-- Stable sort by the `order` key
(`content_elements.sort(key=lambda x: x['order'])`). -/
def sortByOrder (l : List WxEl) : List WxEl :=
  l.foldl (fun acc e => insByOrder e acc) []

/-- The element descendants of a node (BeautifulSoup
`find_all(recursive=True)`: tags only). -/
def elemDescendants (h : Html) : List Html :=
  h.descendants.filter fun n => (n.nameOf).isSome

/-- `soup.find(...)` with a predicate: first matching element
descendant. -/
def findFirstElem (doc : Html) (p : Html → Bool) : Option Html :=
  (elemDescendants doc).find? p

/-- The WeChat content walk over a located content element: walk, then
sort by the `order` key. -/
def wxContentWalk (contentElem : Html) : WxSt :=
  let st := (elemDescendants contentElem).foldl wxStep ⟨[], [], []⟩
  { st with els := sortByOrder st.els }

/-- The result dictionary of the WeChat `parse_html_content` (the
`extraction_time` wall-clock field is omitted). -/
structure WxResult where
  success : Bool
  title : String
  author : String
  publishTime : String
  contentElements : List WxEl
  content : List String
  images : List WxEl
  paragraphCount : Nat
  imageCount : Nat
  totalElements : Nat
  errorMsg : Option String
  method : String
deriving Repr

/-- `WeChatArticleScraperAPI.parse_html_content` on a parsed document:
metadata via `find` chains, content walk over `#js_content` or
`.rich_media_content`, statistics, and the constant
`method = 'html_parsing'` tag. -/
def wxParseHtml (doc : Html) : WxResult :=
  let titleElem :=
    (findFirstElem doc fun n =>
        n.nameOf == some "h1" && n.getAttr "id" == some "activity-name") <|>
    (findFirstElem doc fun n =>
        n.nameOf == some "h1" && n.classesOf.contains "rich_media_title") <|>
    (findFirstElem doc fun n => n.nameOf == some "h1")
  let title := match titleElem with
    | some e => pyStrip (getTextRaw e)
    | none => "未找到标题"
  let authorElem :=
    (findFirstElem doc fun n =>
        n.nameOf == some "span" && n.getAttr "id" == some "js_name") <|>
    (findFirstElem doc fun n =>
        n.nameOf == some "span" && n.classesOf.contains "profile_nickname")
  let author := match authorElem with
    | some e => pyStrip (getTextRaw e)
    | none => "未知作者"
  let timeElem := findFirstElem doc fun n =>
    n.nameOf == some "span" && n.getAttr "id" == some "publish_time"
  let publishTime := match timeElem with
    | some e => pyStrip (getTextRaw e)
    | none => "未知时间"
  let contentElem :=
    (findFirstElem doc fun n =>
        n.nameOf == some "div" && n.getAttr "id" == some "js_content") <|>
    (findFirstElem doc fun n =>
        n.nameOf == some "div" && n.classesOf.contains "rich_media_content")
  let walked := match contentElem with
    | some ce => wxContentWalk ce
    | none => ⟨[], [], []⟩
  let textCount := (walked.els.filter fun e => match e with
    | .textEl _ _ _ => true
    | _ => false).length
  let imageCount := (walked.els.filter fun e => match e with
    | .imageEl _ _ _ _ => true
    | _ => false).length
  { success := true, title, author, publishTime,
    contentElements := walked.els, content := wxTextsOf walked.els,
    images := walked.images, paragraphCount := textCount, imageCount,
    totalElements := walked.els.length, errorMsg := none,
    method := "html_parsing" }

/-! ## Tieba metadata and post assembly -/

/-- A match of `/p/(\d+)` anchored at the current position. -/
def matchPDigits : List Char → Option String
  | '/' :: 'p' :: '/' :: c :: rest =>
      if c.isDigit then some (String.mk (c :: rest.takeWhile Char.isDigit))
      else none
  | _ => none

/-- `re.search(r'/p/(\d+)', url)`: leftmost position where the pattern
matches, capturing the maximal digit run. -/
def searchPDigits : List Char → Option String
  | [] => none
  | c :: rest =>
      match matchPDigits (c :: rest) with
      | some s => some s
      | none => searchPDigits rest

/-- A match of `tid=(\d+)` anchored at the current position. -/
def matchTid : List Char → Option String
  | 't' :: 'i' :: 'd' :: '=' :: c :: rest =>
      if c.isDigit then some (String.mk (c :: rest.takeWhile Char.isDigit))
      else none
  | _ => none

/-- `re.search(r'tid=(\d+)', url)`. -/
def searchTid : List Char → Option String
  | [] => none
  | c :: rest =>
      match matchTid (c :: rest) with
      | some s => some s
      | none => searchTid rest

/-- `TiebaPostScraperAPI.extract_post_id`. -/
def extractPostId (url : String) : Option String :=
  match searchPDigits url.toList with
  | some d => some d
  | none => searchTid url.toList

/-- The `post_info` dictionary of `extract_post_info`. -/
structure PostInfo where
  title : String
  author : String
  postTime : String
  forumName : String
  postId : Option String
  url : String
deriving Repr

/-- The ordered title selectors of `extract_post_info`. -/
def titleSelectors : List Sel :=
  [.simple (.cls "core_title_txt"), .simple (.cls "p_title"),
   .simple (.tagCls "h1" "core_title_txt"), .simple (.tagCls "h3" "core_title_txt"),
   .simple (.clsContains "title")]

/-- The ordered forum-name selectors of `extract_post_info`. -/
def forumSelectors : List Sel :=
  [.simple (.cls "card_title"), .simple (.cls "forum_name"),
   .simple (.tagAttrContains "a" "href" "/f?kw=")]

/-- `TiebaPostScraperAPI.extract_post_info`. -/
def extractPostInfo (doc : Html) (url : String) : PostInfo :=
  let title := (titleSelectors.findSome? fun s =>
    (selectOne doc s).bind fun e =>
      let t := pyStrip (getTextRaw e)
      if t ≠ "" ∧ t.length > 3 then some t else none).getD "未找到标题"
  let forum := (forumSelectors.findSome? fun s =>
    (selectOne doc s).bind fun e =>
      let t := pyStrip (getTextRaw e)
      if t ≠ "" ∧ t.length > 1 then some (pyReplace t "吧" "") else none).getD "未知贴吧"
  { title, author := "未知作者", postTime := "未知时间", forumName := forum,
    postId := extractPostId url, url }

/-- The `main_post` dictionary; `contentElements = none` models the
missing `content_elements` key when no main-post container is found. -/
structure MainPost where
  author : String
  postTime : String
  content : List String
  images : List ContentEl
  contentElements : Option (List ContentEl)
deriving Repr

/-- The ordered main-post container selectors. -/
def mainPostSelectors : List Sel :=
  [.simple (.cls "d_post_content"),
   .desc (.cls "p_postlist") (.firstChild (.cls "l_post")),
   .desc (.cls "core_reply_wrapper") (.firstChild (.cls "l_post"))]

/-- The ordered author selectors (shared by main post and replies). -/
def authorSelectors : List Sel :=
  [.simple (.cls "p_author_name"), .simple (.cls "username"),
   .simple (.tagAttrExists "a" "username")]

/-- Author lookup inside a post element, with fallback default. -/
def extractAuthor (postElem : Html) (dflt : String) : String :=
  (authorSelectors.findSome? fun s =>
    (selectOne postElem s).bind fun e =>
      let t := pyStrip (getTextRaw e)
      if t ≠ "" then some t else none).getD dflt

/-- `TiebaPostScraperAPI.extract_main_post`. -/
def extractMainPost (doc : Html) : MainPost :=
  match mainPostSelectors.findSome? (selectOne doc) with
  | none =>
      { author := "未知作者", postTime := "未知时间", content := [],
        images := [], contentElements := none }
  | some mp =>
      let r := extractPostContent mp
      { author := extractAuthor mp "未知作者", postTime := "未知时间",
        content := r.1, images := r.2.1, contentElements := some r.2.2 }

/-! ## `extract_replies` (lines 496-555) -/

/-- A reply dictionary. -/
structure Reply where
  floor : Nat
  author : String
  postTime : String
  content : List String
  images : List ContentEl
  contentElements : List ContentEl
deriving Repr, DecidableEq

/-- The ordered reply selectors. -/
def replySelectors : List Sel :=
  [.simple (.clsAttrContains "l_post" "data-field" "content"),
   .desc (.cls "core_reply") (.simple (.cls "l_post"))]

/-- The reply elements: first selector yielding more than one match,
with the first match (the main post) dropped. -/
def replyElements (doc : Html) : List Html :=
  match replySelectors.findSome? (fun s =>
      let els := select doc s
      if els.length > 1 then some els else none) with
  | some els => els.drop 1
  | none => []

/-- One reply record for the `i`-th processed element (1-based):
`floor = i + 1`, author lookup, content through
`extract_post_content`. -/
def mkReply (i : Nat) (relem : Html) : Reply :=
  let r := extractPostContent relem
  { floor := i + 1, author := extractAuthor relem "未知用户",
    postTime := "未知时间", content := r.1, images := r.2.1,
    contentElements := r.2.2 }

/-- The reply loop: 1-based enumeration, a reply is kept only when its
content or image list is nonempty. -/
def extractRepliesAux (i : Nat) : List Html → List Reply
  | [] => []
  | relem :: rest =>
      let r := mkReply i relem
      if r.content ≠ [] ∨ r.images ≠ [] then
        r :: extractRepliesAux (i + 1) rest
      else extractRepliesAux (i + 1) rest

/-- `TiebaPostScraperAPI.extract_replies`: at most the first 10 reply
elements are processed. -/
def extractReplies (doc : Html) : List Reply :=
  extractRepliesAux 1 ((replyElements doc).take 10)

/-! ## Markdown rendering (`generate_main_markdown`,
`generate_comments_markdown`) -/

/-- The mixed text/image body with its 1-based image caption counter;
`pfx` is the caption prefix (empty for the main post, `"{floor}楼"` for
replies). -/
def mdElsBody (pfx : String) (els : List ContentEl) : String :=
  (els.foldl (fun (acc : String × Nat) e =>
    match e with
    | .textEl c _ => (acc.1 ++ c ++ "\n\n", acc.2)
    | .imageEl s _ _ =>
        (acc.1 ++ "![" ++ pfx ++ "图片" ++ toString acc.2 ++ "](" ++ s ++ ")\n\n",
          acc.2 + 1)) ("", 1)).1

/-- The backup body used when `content_elements` is absent or empty:
paragraphs first, then all images. -/
def mdBackupBody (pfx : String) (content : List String) (images : List ContentEl) :
    String :=
  (content.foldl (fun acc c => acc ++ c ++ "\n\n") "") ++
  ((images.foldl (fun (acc : String × Nat) e =>
    match e with
    | .imageEl s _ _ =>
        (acc.1 ++ "![" ++ pfx ++ "图片" ++ toString acc.2 ++ "](" ++ s ++ ")\n\n",
          acc.2 + 1)
    | .textEl _ _ => acc) ("", 1)).1)

/-- `generate_main_markdown`. -/
def generateMainMarkdown (pi : PostInfo) (mp : MainPost) : String :=
  let header := "# " ++ pi.title ++ "\n\n" ++ "**贴吧**: " ++ pi.forumName ++
    "吧\n" ++ "**作者**: " ++ mp.author ++ "\n\n" ++ "---\n\n"
  let body := match mp.contentElements with
    | some els => if els.isEmpty then mdBackupBody "" mp.content mp.images
                  else mdElsBody "" els
    | none => mdBackupBody "" mp.content mp.images
  header ++ body

/-- `generate_comments_markdown`. -/
def generateCommentsMarkdown (pi : PostInfo) (replies : List Reply) : String :=
  if replies.isEmpty then ""
  else
    let header := "# " ++ pi.title ++ " - 评论区\n\n" ++ "**原帖链接**: " ++
      pi.url ++ "\n\n" ++ "---\n\n"
    replies.foldl (fun acc r =>
      let rheader := "## " ++ toString r.floor ++ "楼 - " ++ r.author ++ "\n\n"
      let body := if r.contentElements.isEmpty then
          mdBackupBody (toString r.floor ++ "楼") r.content r.images
        else mdElsBody (toString r.floor ++ "楼") r.contentElements
      acc ++ rheader ++ body ++ "---\n\n") header

/-! ## `TiebaPostScraperAPI.parse_html_content` (lines 338-390) -/

/-- The result dictionary of the Tieba `parse_html_content`
(`extraction_time` omitted). -/
structure TiebaResult where
  success : Bool
  postInfo : PostInfo
  mainPost : MainPost
  replies : List Reply
  totalReplies : Nat
  allImages : List ContentEl
  totalImages : Nat
  mainMarkdown : String
  commentsMarkdown : String
  charCount : Nat
  method : String
  url : String
deriving Repr

/-- The Tieba `parse_html_content` on a parsed document: metadata, main
post, replies, collected images, markdown renderings and the constant
`method = 'html_parsing'` tag. -/
def tiebaParseHtml (doc : Html) (url : String) : TiebaResult :=
  let pi := extractPostInfo doc url
  let mp := extractMainPost doc
  let rs := extractReplies doc
  let allImages := mp.images ++ (rs.map (·.images)).flatten
  let mm := generateMainMarkdown pi mp
  let cm := generateCommentsMarkdown pi rs
  { success := true, postInfo := pi, mainPost := mp, replies := rs,
    totalReplies := rs.length, allImages, totalImages := allImages.length,
    mainMarkdown := mm, commentsMarkdown := cm,
    charCount := mm.length + cm.length, method := "html_parsing", url }

/-! ## The image pipeline, `TiebaPostScraperAPI.download_images`
(lines 178-248)

HTTP fetching is an oracle `fetch : String → Option Nat` returning the
status code, or `none` for an exception or timeout; the OpenCV
watermark step is an oracle `wmOracle` on the stored filename, guarded
by the `remove_watermarks and HAS_CV2` flag `rw`. -/

/-- Extension selection from content-type hints in the URL. -/
def extOf (url : String) : String :=
  let u := pyLower url
  if substrOf "jpeg" u || substrOf "jpg" u then ".jpg"
  else if substrOf "png" u then ".png"
  else if substrOf "gif" u then ".gif"
  else if substrOf "webp" u then ".webp"
  else ".jpg"

/-- Python `f"{n:03d}"`. -/
def pad3 (n : Nat) : String :=
  if n < 10 then "00" ++ toString n
  else if n < 100 then "0" ++ toString n
  else toString n

/-- A record of `downloaded_images` (the absolute `local_path` is
represented by the served `image_url`). -/
structure DownloadedImage where
  originalUrl : String
  filename : String
  imageUrl : String
  alt : String
  title : String
  watermarkRemoved : Bool
deriving Repr, DecidableEq

/-- The loop body of `download_images` for the `k`-th (0-based) input
image: skip empty sources, build `image_{k+1:03}{ext}`, fetch, keep
only status 200.  The images handed to `download_images` are image
dictionaries (`all_images`), so a text element yields nothing. -/
def downloadOutcome (postId : String) (fetch : String → Option Nat)
    (rw : Bool) (wmOracle : String → Bool) (k : Nat) (img : ContentEl) :
    Option DownloadedImage :=
  match img with
  | .textEl _ _ => none
  | .imageEl src alt title =>
      if src = "" then none
      else
        let fn := "image_" ++ pad3 (k + 1) ++ extOf src
        match fetch src with
        | some 200 =>
            some { originalUrl := src, filename := fn,
                   imageUrl := "/tieba/images/" ++ postId ++ "/" ++ fn,
                   alt, title, watermarkRemoved := rw && wmOracle fn }
        | _ => none

/-- The `enumerate(images, 1)` loop of `download_images`. -/
def downloadImagesAux (postId : String) (fetch : String → Option Nat)
    (rw : Bool) (wmOracle : String → Bool) (k : Nat) :
    List ContentEl → List DownloadedImage
  | [] => []
  | img :: rest =>
      match downloadOutcome postId fetch rw wmOracle k img with
      | some d => d :: downloadImagesAux postId fetch rw wmOracle (k + 1) rest
      | none => downloadImagesAux postId fetch rw wmOracle (k + 1) rest

/-- `TiebaPostScraperAPI.download_images`. -/
def downloadImages (images : List ContentEl) (postId : String)
    (fetch : String → Option Nat) (rw : Bool) (wmOracle : String → Bool) :
    List DownloadedImage :=
  downloadImagesAux postId fetch rw wmOracle 0 images

/-! ## The `/tieba/scrape` route slice (lines 1579-1695) -/

/-- `update_markdown_with_local_images`: build the original-to-local
URL map (a dict, so a repeated original URL keeps its first position
with the last local value) and rewrite each markdown link target. -/
def urlMapOf (dl : List DownloadedImage) : List (String × String) :=
  dl.foldl (fun m img =>
    if m.any (fun p => p.1 == img.originalUrl) then
      m.map fun p =>
        if p.1 == img.originalUrl then (p.1, img.imageUrl) else p
    else m ++ [(img.originalUrl, img.imageUrl)]) []

/-- Rewrite `](original)` to `](local)` for every mapping entry. -/
def updateMarkdownWithLocalImages (md : String) (dl : List DownloadedImage) :
    String :=
  if dl.isEmpty then md
  else (urlMapOf dl).foldl (fun m p =>
    pyReplace m ("](" ++ p.1 ++ ")") ("](" ++ p.2 ++ ")")) md

/-- The per-image entry of the route's `images` response field. -/
structure ImageInfo where
  filename : String
  url : String
  alt : String
  title : String
  watermarkRemoved : Bool
deriving Repr, DecidableEq

/-- The JSON response of a successful `/tieba/scrape` call
(`extraction_time` omitted; `uniqueId` stands for the generated
title/post-id/timestamp container id, `baseUrl` for
`request.host_url.rstrip('/')`). -/
structure ScrapeTiebaResponse where
  success : Bool
  postId : String
  title : String
  forumName : String
  author : String
  totalReplies : Nat
  imageCount : Nat
  totalImages : Nat
  mainMarkdown : String
  commentsMarkdown : String
  method : String
  sourceUrl : String
  images : List ImageInfo
deriving Repr

/-- The successful-path body of the `scrape_tieba` route: parse, then
download when requested, then markdown link rewriting and the response
record with requested (`totalImages`) versus materialized
(`imageCount`) counts. -/
def scrapeTiebaRoute (doc : Html) (url : String) (downloadFlag : Bool)
    (uniqueId : String) (baseUrl : String) (fetch : String → Option Nat)
    (rw : Bool) (wmOracle : String → Bool) : ScrapeTiebaResponse :=
  let pd := tiebaParseHtml doc url
  let downloaded :=
    if downloadFlag ∧ ¬ pd.allImages.isEmpty then
      downloadImages pd.allImages uniqueId fetch rw wmOracle
    else []
  let mm := if downloaded.isEmpty then pd.mainMarkdown
            else updateMarkdownWithLocalImages pd.mainMarkdown downloaded
  let cm := if downloaded.isEmpty then pd.commentsMarkdown
            else updateMarkdownWithLocalImages pd.commentsMarkdown downloaded
  { success := true, postId := uniqueId, title := pd.postInfo.title,
    forumName := pd.postInfo.forumName, author := pd.mainPost.author,
    totalReplies := pd.totalReplies, imageCount := downloaded.length,
    totalImages := pd.totalImages, mainMarkdown := mm, commentsMarkdown := cm,
    method := pd.method, sourceUrl := url,
    images := downloaded.map fun d =>
      { filename := d.filename, url := baseUrl ++ d.imageUrl, alt := d.alt,
        title := d.title, watermarkRemoved := d.watermarkRemoved } }

/-! ## Invariant predicates and concrete example documents -/

/-- The de-duplication invariant: pairwise distinct text contents,
pairwise distinct image sources, and every emitted text recorded in
`processed_texts`. -/
def StOk (els : List ContentEl) (processed : List String) : Prop :=
  (textsOf els).Pairwise (· ≠ ·) ∧ (imgSrcsOf els).Pairwise (· ≠ ·) ∧
    ∀ c ∈ textsOf els, processed.contains c = true

/-- The WeChat de-duplication invariant: pairwise distinct text
contents, pairwise distinct image sources, emitted texts recorded in
`processed_texts`. -/
def WxOk (els : List WxEl) (processed : List String) : Prop :=
  (wxTextsOf els).Pairwise (· ≠ ·) ∧ (wxImgSrcsOf els).Pairwise (· ≠ ·) ∧
    ∀ c ∈ wxTextsOf els, processed.contains c = true

/-- The spec's end-to-end scenario input:
`<div class="content"><p>Hello</p><img src="/i/1.jpg"><p>World</p></div>`. -/
def c1doc : Html :=
  .elem "div" ["content"] []
    [.elem "p" [] [] [.text "Hello"],
     .elem "img" [] [("src", "/i/1.jpg")] [],
     .elem "p" [] [] [.text "World"]]

/-- A post element whose content container repeats one image (same
resolved URL) and one text block. -/
def c4post : Html :=
  .elem "div" [] [] [
    .elem "div" ["d_post_content"] []
      [.text "第一段内容哈哈", .elem "br" [] [] [],
       .elem "img" [] [("src", "https://imgsrc.baidu.com/pic/a.jpg")] [],
       .text "第二段内容哈哈", .elem "br" [] [] [],
       .elem "img" [] [("src", "https://imgsrc.baidu.com/pic/a.jpg")] [],
       .text "第一段内容哈哈"]]

/-- A content root on which the primary walk and the element walk both
produce nothing (its only text segment contains a boilerplate phrase)
but whose flattened text is long enough and contains a sentence-ending
delimiter, so the sentence-split fallback fires. -/
def c5post : Html :=
  .elem "div" [] [] [.text "点击展开,查看完整图片。abcdefghi"]

/-- A document resolved by the primary strategy. -/
def c7docA : Html :=
  .elem "body" [] []
    [.elem "div" ["d_post_content"] [] [.text "正常的主帖文字内容。"]]

/-- A document resolved by the sentence-split fallback strategy. -/
def c7docB : Html :=
  .elem "body" [] []
    [.elem "div" ["d_post_content"] [] [.text "点击展开,查看完整图片。abcdefghi"]]

/-- A document with one main post and three replies, the second of
which has no extractable content. -/
def c10doc : Html :=
  .elem "body" [] [] [
    .elem "div" ["core_reply"] [] [
      .elem "div" ["l_post"] [] [.elem "div" ["d_post_content"] [] [.text "主帖内容在这里哈哈。"]],
      .elem "div" ["l_post"] [] [.elem "div" ["d_post_content"] [] [.text "一楼回复内容哈哈。"]],
      .elem "div" ["l_post"] [] [.elem "div" ["d_post_content"] [] [.text "12"]],
      .elem "div" ["l_post"] [] [.elem "div" ["d_post_content"] [] [.text "三楼回复内容哈哈。"]]]]

/-- Two image dictionaries for the download counterexample. -/
def c6imgs : List ContentEl :=
  [.imageEl "https://imgsrc.baidu.com/pic/a.jpg" "" "",
   .imageEl "https://imgsrc.baidu.com/pic/b.png" "" ""]

/-- A fetch oracle on which the first image fails (timeout/exception)
and the second succeeds. -/
def c6fetch : String → Option Nat :=
  fun s => if s = "https://imgsrc.baidu.com/pic/a.jpg" then none else some 200

/-- A WeChat document exercising the content walk (for witnesses). -/
def c3doc : Html :=
  .elem "html" [] [] [
    .elem "h1" [] [("id", "activity-name")] [.text "我的标题很好"],
    .elem "div" [] [("id", "js_content")] [
      .elem "p" [] [] [.text "这是第一段正文内容啊啊啊"],
      .elem "img" [] [("data-src", "//mmbiz.qpic.cn/x.jpg")] [],
      .elem "p" [] [] [.text "这是第二段正文内容啊啊啊"],
      .elem "img" [] [("src", "//mmbiz.qpic.cn/x.jpg")] []]]

/-! # Theorems -/

/-- C1: the spec's end-to-end scenario claims the node sequence
`[Text "Hello", Image "https://x.com/i/1.jpg", Text "World"]`; the code
instead merges the two paragraphs into one text node (only `<br>` tags
delimit segments) and drops the image (its root-relative source is
resolved against the hardcoded `https://tieba.baidu.com`, which passes
no media-host allow pattern). -/
theorem c1_scenario_counterexample :
    (extractPostContent c1doc).2.2 = [ContentEl.textEl "HelloWorld" "text"] ∧
    (extractPostContent c1doc).2.2 ≠
      [ContentEl.textEl "Hello" "text",
       ContentEl.imageEl "https://x.com/i/1.jpg" "" "",
       ContentEl.textEl "World" "text"] := by
  constructor
  · decide
  · decide

/-- C1 (amended): on that input `extract_post_content` produces exactly
the single text node `"HelloWorld"` and no image: the base URL plays no
role (the code resolves `/i/1.jpg` against the fixed
`https://tieba.baidu.com`), and the resolved URL fails the Baidu
media-host allow-check. -/
theorem c1_scenario_amended :
    extractPostContent c1doc =
      (["HelloWorld"], [], [ContentEl.textEl "HelloWorld" "text"]) ∧
    resolveTiebaUrl "/i/1.jpg" = "https://tieba.baidu.com/i/1.jpg" ∧
    isAllowedTiebaImg "https://tieba.baidu.com/i/1.jpg" [] = false := by
  refine ⟨by decide, by decide, by decide⟩

/-- C2: the claim says a root-relative reference resolves to the page's
origin plus the path; the code prefixes a fixed site domain instead, so
`/img/a.jpg` does not resolve to `https://site.example.com/img/a.jpg`
under any page base. -/
theorem c2_url_resolution_counterexample :
    resolveTiebaUrl "/img/a.jpg" = "https://tieba.baidu.com/img/a.jpg" ∧
    resolveTiebaUrl "/img/a.jpg" ≠ "https://site.example.com/img/a.jpg" ∧
    resolveWechatUrl "/img/a.jpg" = "https://mp.weixin.qq.com/img/a.jpg" ∧
    resolveWechatUrl "/img/a.jpg" ≠ "https://site.example.com/img/a.jpg" := by
  refine ⟨by decide, by decide, by decide, by decide⟩

/-- C2 (amended): protocol-relative references get the `https:` scheme
prepended (so `//cdn.example.com/a.jpg` resolves to
`https://cdn.example.com/a.jpg`), while root-relative references are
prefixed with the hardcoded family domain (`https://tieba.baidu.com`
resp. `https://mp.weixin.qq.com`), not the page's origin. -/
theorem c2_url_resolution_amended :
    (∀ s : String, pyStartsWith s "//" = true →
      resolveTiebaUrl s = "https:" ++ s ∧ resolveWechatUrl s = "https:" ++ s) ∧
    (∀ s : String, pyStartsWith s "//" = false → pyStartsWith s "/" = true →
      resolveTiebaUrl s = "https://tieba.baidu.com" ++ s ∧
        resolveWechatUrl s = "https://mp.weixin.qq.com" ++ s) ∧
    resolveTiebaUrl "//cdn.example.com/a.jpg" = "https://cdn.example.com/a.jpg" := by
  refine ⟨?_, ?_, by decide⟩
  · intro s h
    constructor <;> simp [resolveTiebaUrl, resolveWechatUrl, h]
  · intro s h h2
    constructor <;> simp [resolveTiebaUrl, resolveWechatUrl, h, h2]

/-- C2 witness: the amended resolution rules at the spec's concrete
inputs. -/
theorem c2_url_resolution_witness :
    resolveTiebaUrl "//cdn.example.com/a.jpg" = "https://cdn.example.com/a.jpg" ∧
    resolveTiebaUrl "/img/a.jpg" = "https://tieba.baidu.com/img/a.jpg" :=
  ⟨(c2_url_resolution_amended.1 "//cdn.example.com/a.jpg" (by decide)).1,
   (c2_url_resolution_amended.2.1 "/img/a.jpg" (by decide) (by decide)).1⟩

/-- C9: `_is_valid_text_content` rejects exactly the listed cases —
length below 3, seen-set membership, containment of a boilerplate
phrase, purely numeric text, a `http` prefix, a punctuation singleton,
and the single-character blacklist rule — and accepts everything else;
in particular the two-character tokens `回复` and `举报` are rejected
(by the minimum-length rule). -/
theorem c9_valid_text_characterization (t : String) (processed : List String) :
    (isValidTextContent t processed = false ↔
      (t.length < 3 ∨ t ∈ processed ∨
        (∃ p ∈ filterPatterns, substrOf p t = true) ∨
        isAllDigits t = true ∨ pyStartsWith t "http" = true ∨
        t ∈ punctSingletons ∨
        ((pyStrip t).length = 1 ∧ pyStrip t ∈ singleCharBlacklist))) ∧
    isValidTextContent "回复" processed = false ∧
    isValidTextContent "举报" processed = false := by
  refine ⟨?_, rfl, rfl⟩
  unfold isValidTextContent
  split_ifs with h1 h2 h3 h4 h5
  · exact iff_of_true rfl (Or.inl h1)
  · exact iff_of_true rfl (Or.inr (Or.inl (List.mem_of_elem_eq_true h2)))
  · exact iff_of_true rfl (Or.inr (Or.inr (Or.inl (List.any_eq_true.mp h3))))
  · rcases Bool.or_eq_true .. |>.mp h4 with h | h
    · rcases Bool.or_eq_true .. |>.mp h with h | h
      · exact iff_of_true rfl (Or.inr (Or.inr (Or.inr (Or.inl h))))
      · exact iff_of_true rfl (Or.inr (Or.inr (Or.inr (Or.inr (Or.inl h)))))
    · exact iff_of_true rfl <| Or.inr <| Or.inr <| Or.inr <| Or.inr <| Or.inr <|
        Or.inl (List.mem_of_elem_eq_true h)
  · rcases Bool.and_eq_true .. |>.mp h5 with ⟨ha, hb⟩
    exact iff_of_true rfl <| Or.inr <| Or.inr <| Or.inr <| Or.inr <| Or.inr <|
      Or.inr ⟨by simpa using ha, List.mem_of_elem_eq_true hb⟩
  · refine iff_of_false (by simp) ?_
    rintro (h | h | h | h | h | h | ⟨ha, hb⟩)
    · exact h1 h
    · exact h2 (List.elem_eq_true_of_mem h)
    · exact h3 (List.any_eq_true.mpr h)
    · exact h4 (by simp [h])
    · exact h4 (by simp [h])
    · exact h4 (by simp [h])
    · exact h5 (by simp [ha, hb])

/-- Inversion of one `download_images` loop body: a stored record comes
from an image dictionary with a nonempty source that fetched with
status 200, and carries the filename built from the enumeration
index. -/
theorem downloadOutcome_some {postId : String} {fetch : String → Option Nat}
    {rw : Bool} {wmOracle : String → Bool} {k : Nat} {img : ContentEl}
    {d : DownloadedImage}
    (h : downloadOutcome postId fetch rw wmOracle k img = some d) :
    ∃ src alt title, img = .imageEl src alt title ∧ src ≠ "" ∧
      fetch src = some 200 ∧
      d = { originalUrl := src,
            filename := "image_" ++ pad3 (k + 1) ++ extOf src,
            imageUrl := "/tieba/images/" ++ postId ++ "/" ++
              ("image_" ++ pad3 (k + 1) ++ extOf src),
            alt, title,
            watermarkRemoved :=
              rw && wmOracle ("image_" ++ pad3 (k + 1) ++ extOf src) } := by
  cases img with
  | textEl c t => simp [downloadOutcome] at h
  | imageEl src alt title =>
      simp only [downloadOutcome] at h
      split_ifs at h with hs
      split at h
      next hfetch => exact ⟨src, alt, title, rfl, hs, hfetch, (Option.some.inj h).symm⟩
      next => simp at h

/-- Every record produced by the `download_images` loop comes from the
input image at some position `j`, fetched successfully, and is named by
the enumeration counter `k + j + 1`. -/
theorem downloadImagesAux_mem {postId : String} {fetch : String → Option Nat}
    {rw : Bool} {wmOracle : String → Bool} :
    ∀ (l : List ContentEl) (k : Nat) (d : DownloadedImage),
      d ∈ downloadImagesAux postId fetch rw wmOracle k l →
      ∃ j, j < l.length ∧ ∃ src alt title,
        l[j]? = some (.imageEl src alt title) ∧ src ≠ "" ∧
        fetch src = some 200 ∧
        d.originalUrl = src ∧
        d.filename = "image_" ++ pad3 (k + j + 1) ++ extOf src ∧
        d.imageUrl = "/tieba/images/" ++ postId ++ "/" ++ d.filename := by
  intro l
  induction l with
  | nil => intro k d h; simp [downloadImagesAux] at h
  | cons img rest ih =>
      intro k d h
      rw [downloadImagesAux] at h
      cases hout : downloadOutcome postId fetch rw wmOracle k img with
      | none =>
          rw [hout] at h
          obtain ⟨j, hj, src, alt, title, hget, hsrc, hf, ho, hfn, hurl⟩ :=
            ih (k + 1) d h
          exact ⟨j + 1, by simpa using hj, src, alt, title, by simpa using hget,
            hsrc, hf, ho,
            by simpa [Nat.add_assoc, Nat.add_comm, Nat.add_left_comm] using hfn, hurl⟩
      | some d0 =>
          rw [hout] at h
          rcases List.mem_cons.mp h with rfl | h2
          · obtain ⟨src, alt, title, rfl, hsrc, hf, rfl⟩ := downloadOutcome_some hout
            exact ⟨0, by simp, src, alt, title, by simp, hsrc, hf, rfl, by simp, rfl⟩
          · obtain ⟨j, hj, src, alt, title, hget, hsrc, hf, ho, hfn, hurl⟩ :=
              ih (k + 1) d h2
            exact ⟨j + 1, by simpa using hj, src, alt, title, by simpa using hget,
              hsrc, hf, ho,
              by simpa [Nat.add_assoc, Nat.add_comm, Nat.add_left_comm] using hfn, hurl⟩

/-- C6: the claim says sequence numbers follow fetch-success order with
no gaps (`n` successes are stored as `image_001` … `image_{n:03}`); on
a batch of two images whose first fetch fails, the single stored file
is `image_002.png`, not `image_001.png` — the counter is the input
position and failures leave gaps. -/
theorem c6_filename_counterexample :
    (downloadImages c6imgs "post1" c6fetch false (fun _ => false)).map
        (·.filename) = ["image_002.png"] ∧
    (downloadImages c6imgs "post1" c6fetch false (fun _ => false)).map
        (·.filename) ≠ ["image_001.png"] := by
  refine ⟨by decide, by decide⟩

/-- C6 (amended): every stored image gets
`image_{j+1:03}.{ext}` inside the per-container subdirectory, where
`j` is the image's 0-based position in the *input* list
(`enumerate(images, 1)`), so skipped or failed images leave gaps in the
stored sequence numbers. -/
theorem c6_filename_amended (images : List ContentEl) (postId : String)
    (fetch : String → Option Nat) (rw : Bool) (wmOracle : String → Bool) :
    ∀ d ∈ downloadImages images postId fetch rw wmOracle,
      ∃ j, j < images.length ∧ ∃ src alt title,
        images[j]? = some (.imageEl src alt title) ∧ src ≠ "" ∧
        fetch src = some 200 ∧
        d.originalUrl = src ∧
        d.filename = "image_" ++ pad3 (j + 1) ++ extOf src ∧
        d.imageUrl = "/tieba/images/" ++ postId ++ "/" ++ d.filename := by
  intro d h
  obtain ⟨j, hj, src, alt, title, hget, hsrc, hf, ho, hfn, hurl⟩ :=
    downloadImagesAux_mem images 0 d h
  exact ⟨j, hj, src, alt, title, hget, hsrc, hf, ho, by simpa using hfn, hurl⟩

/-- C6 witness: the amended statement instantiated on the two-image
batch whose first fetch fails. -/
theorem c6_filename_witness :
    ∃ j, j < c6imgs.length ∧ ∃ src alt title,
      c6imgs[j]? = some (.imageEl src alt title) ∧ src ≠ "" ∧
      c6fetch src = some 200 ∧
      ({ originalUrl := "https://imgsrc.baidu.com/pic/b.png",
         filename := "image_002.png",
         imageUrl := "/tieba/images/post1/image_002.png",
         alt := "", title := "",
         watermarkRemoved := false } : DownloadedImage).originalUrl = src ∧
      ({ originalUrl := "https://imgsrc.baidu.com/pic/b.png",
         filename := "image_002.png",
         imageUrl := "/tieba/images/post1/image_002.png",
         alt := "", title := "",
         watermarkRemoved := false } : DownloadedImage).filename =
        "image_" ++ pad3 (j + 1) ++ extOf src ∧
      ({ originalUrl := "https://imgsrc.baidu.com/pic/b.png",
         filename := "image_002.png",
         imageUrl := "/tieba/images/post1/image_002.png",
         alt := "", title := "",
         watermarkRemoved := false } : DownloadedImage).imageUrl =
        "/tieba/images/post1/" ++ "image_002.png" :=
  c6_filename_amended c6imgs "post1" c6fetch false (fun _ => false)
    { originalUrl := "https://imgsrc.baidu.com/pic/b.png",
      filename := "image_002.png",
      imageUrl := "/tieba/images/post1/image_002.png",
      alt := "", title := "", watermarkRemoved := false } (by decide)

/-- One WeChat walk step either leaves `content_elements` unchanged or
appends a single element whose `order` is the list length at append
time. -/
theorem wxStep_shape (st : WxSt) (node : Html) :
    (wxStep st node).els = st.els ∨
    ∃ e : WxEl, e.order = st.els.length ∧ (wxStep st node).els = st.els ++ [e] := by
  unfold wxStep
  dsimp only
  repeat' split
  all_goals first
    | (left; rfl)
    | (right; refine ⟨_, ?_, rfl⟩; rfl)

/-- Along the WeChat walk, the `order` fields stay equal to the element
positions. -/
theorem wxFold_orders (l : List Html) :
    ∀ st : WxSt, st.els.map WxEl.order = List.range st.els.length →
      (l.foldl wxStep st).els.map WxEl.order =
        List.range (l.foldl wxStep st).els.length := by
  induction l with
  | nil => intro st h; exact h
  | cons n rest ih =>
      intro st h
      rw [List.foldl_cons]
      apply ih
      rcases wxStep_shape st n with h1 | ⟨e, he, h2⟩
      · rw [h1]; exact h
      · rw [h2]
        simp [List.range_succ, h, he]

/-- Inserting behind every smaller-or-equal key is an append when the
accumulator is bounded by the new key. -/
theorem insByOrder_append (e : WxEl) :
    ∀ acc : List WxEl, (∀ x ∈ acc, x.order ≤ e.order) →
      insByOrder e acc = acc ++ [e] := by
  intro acc
  induction acc with
  | nil => intro _; rfl
  | cons x xs ih =>
      intro h
      unfold insByOrder
      rw [if_pos (h x (List.mem_cons_self x xs))]
      simp [ih fun y hy => h y (List.mem_cons_of_mem x hy)]

/-- The insertion-sort fold is the identity continuation on an already
sorted input. -/
theorem foldl_ins_sorted :
    ∀ (l acc : List WxEl),
      (∀ x ∈ acc, ∀ y ∈ l, x.order ≤ y.order) →
      l.Pairwise (fun a b => a.order ≤ b.order) →
      l.foldl (fun acc e => insByOrder e acc) acc = acc ++ l := by
  intro l
  induction l with
  | nil => intro acc _ _; simp
  | cons y rest ih =>
      intro acc hcross hpw
      rw [List.foldl_cons,
        insByOrder_append y acc (fun x hx => hcross x hx y (List.mem_cons_self y rest))]
      rw [ih (acc ++ [y]) ?cross (List.Pairwise.sublist (List.sublist_cons_self y rest) hpw)]
      · simp
      case cross =>
        intro x hx z hz
        rcases List.mem_append.mp hx with hx | hx
        · exact hcross x hx z (List.mem_cons_of_mem y hz)
        · rcases List.mem_singleton.mp hx with rfl
          exact (List.pairwise_cons.mp hpw).1 z hz

/-- The stable sort by `order` does not move anything when the keys are
already sorted. -/
theorem sortByOrder_of_sorted (l : List WxEl)
    (h : l.Pairwise (fun a b => a.order ≤ b.order)) : sortByOrder l = l := by
  unfold sortByOrder
  simpa using foldl_ins_sorted l [] (by simp) h

/-- The WeChat content walk assigns `order = position`. -/
theorem wxContentWalk_orders (ce : Html) :
    (wxContentWalk ce).els.map WxEl.order =
      List.range (wxContentWalk ce).els.length := by
  have h := wxFold_orders (elemDescendants ce) ⟨[], [], []⟩ (by simp)
  have hle : ((elemDescendants ce).foldl wxStep ⟨[], [], []⟩).els.Pairwise
      (fun a b => a.order ≤ b.order) := by
    rw [← List.pairwise_map (f := WxEl.order) (R := (· ≤ ·)), h]
    exact List.pairwise_le_range _
  unfold wxContentWalk
  dsimp only
  rw [sortByOrder_of_sorted _ hle]
  exact h

/-- C3: in every extraction result the `order` values of the content
elements are exactly `0, 1, 2, …` in sequence — strictly increasing,
no value repeated, and equal to the position in the document-order
walk. -/
theorem c3_orders_strictly_increasing (doc : Html) :
    (wxParseHtml doc).contentElements.map WxEl.order =
      List.range (wxParseHtml doc).contentElements.length ∧
    (wxParseHtml doc).contentElements.Pairwise
      (fun a b => a.order < b.order) := by
  have key : (wxParseHtml doc).contentElements.map WxEl.order =
      List.range (wxParseHtml doc).contentElements.length := by
    unfold wxParseHtml
    dsimp only
    split
    · exact wxContentWalk_orders _
    · simp
  refine ⟨key, ?_⟩
  rw [← List.pairwise_map (f := WxEl.order) (R := (· < ·)), key]
  exact List.pairwise_lt_range _

/-- The reply loop keeps at most as many replies as it processes. -/
theorem extractRepliesAux_len : ∀ (l : List Html) (i : Nat),
    (extractRepliesAux i l).length ≤ l.length := by
  intro l
  induction l with
  | nil => intro i; simp [extractRepliesAux]
  | cons e rest ih =>
      intro i
      rw [extractRepliesAux]
      split
      · simpa using Nat.succ_le_succ (ih (i + 1))
      · exact (ih (i + 1)).trans (Nat.le_succ _)

/-- Every kept reply has nonempty content or images and a floor between
`i + 1` and `i + length`. -/
theorem extractRepliesAux_mem : ∀ (l : List Html) (i : Nat) (r : Reply),
    r ∈ extractRepliesAux i l →
      (r.content ≠ [] ∨ r.images ≠ []) ∧ i + 1 ≤ r.floor ∧ r.floor ≤ i + l.length := by
  intro l
  induction l with
  | nil => intro i r h; simp [extractRepliesAux] at h
  | cons e rest ih =>
      intro i r h
      rw [extractRepliesAux] at h
      simp only [List.length_cons]
      split at h
      next hkept =>
        rcases List.mem_cons.mp h with rfl | h2
        · refine ⟨hkept, Nat.le_refl _, ?_⟩
          show i + 1 ≤ i + (rest.length + 1)
          omega
        · obtain ⟨hne, h1, h2⟩ := ih (i + 1) r h2
          exact ⟨hne, by omega, by omega⟩
      next =>
        obtain ⟨hne, h1, h2⟩ := ih (i + 1) r h
        exact ⟨hne, by omega, by omega⟩

/-- Kept reply floors are strictly increasing. -/
theorem extractRepliesAux_floors : ∀ (l : List Html) (i : Nat),
    ((extractRepliesAux i l).map Reply.floor).Pairwise (· < ·) := by
  intro l
  induction l with
  | nil => intro i; simp [extractRepliesAux]
  | cons e rest ih =>
      intro i
      rw [extractRepliesAux]
      split
      · rw [List.map_cons, List.pairwise_cons]
        refine ⟨?_, ih (i + 1)⟩
        intro f hf
        obtain ⟨r, hr, rfl⟩ := List.mem_map.mp hf
        have := (extractRepliesAux_mem rest (i + 1) r hr).2.1
        have hfl : (mkReply i e).floor = i + 1 := rfl
        show (mkReply i e).floor < r.floor
        omega
      · exact ih (i + 1)

/-- C10: `extract_replies` returns at most 10 replies — only the first
10 reply elements are processed — their floors start at 2, never exceed
11, and are strictly increasing; replies whose extracted content and
image lists are both empty are omitted. -/
theorem c10_replies_bounds (doc : Html) :
    (extractReplies doc).length ≤ 10 ∧
    ((extractReplies doc).map Reply.floor).Pairwise (· < ·) ∧
    ∀ r ∈ extractReplies doc,
      (r.content ≠ [] ∨ r.images ≠ []) ∧ 2 ≤ r.floor ∧ r.floor ≤ 11 := by
  refine ⟨?_, extractRepliesAux_floors _ _, ?_⟩
  · calc (extractReplies doc).length
        ≤ ((replyElements doc).take 10).length := extractRepliesAux_len _ _
      _ ≤ 10 := by simp [List.length_take]
  · intro r hr
    obtain ⟨hne, h1, h2⟩ := extractRepliesAux_mem _ _ r hr
    refine ⟨hne, h1, ?_⟩
    have hlen : ((replyElements doc).take 10).length ≤ 10 := by
      simp [List.length_take]
    omega

/-- C10 witness: the bounds at the first kept reply of the concrete
document (its second reply element is dropped as contentless). -/
theorem c10_replies_witness :
    (({ floor := 2, author := "未知用户", postTime := "未知时间",
        content := ["一楼回复内容哈哈。"], images := [],
        contentElements := [ContentEl.textEl "一楼回复内容哈哈。" "text"] } :
          Reply).content ≠ [] ∨
      ({ floor := 2, author := "未知用户", postTime := "未知时间",
         content := ["一楼回复内容哈哈。"], images := [],
         contentElements := [ContentEl.textEl "一楼回复内容哈哈。" "text"] } :
           Reply).images ≠ []) ∧
    2 ≤ ({ floor := 2, author := "未知用户", postTime := "未知时间",
           content := ["一楼回复内容哈哈。"], images := [],
           contentElements := [ContentEl.textEl "一楼回复内容哈哈。" "text"] } :
             Reply).floor ∧
    ({ floor := 2, author := "未知用户", postTime := "未知时间",
       content := ["一楼回复内容哈哈。"], images := [],
       contentElements := [ContentEl.textEl "一楼回复内容哈哈。" "text"] } :
         Reply).floor ≤ 11 :=
  (c10_replies_bounds c10doc).2.2 _ (by decide)

/-- The text phase either leaves the state unchanged or appends one
fresh (not yet seen) cleaned text element and records it. -/
theorem primaryTextStep_cases (st : ExtractSt) (part : String) :
    primaryTextStep st part = st ∨
    ∃ c, (primaryTextStep st part).els = st.els ++ [ContentEl.textEl c "text"] ∧
      (primaryTextStep st part).processed = st.processed ++ [c] ∧
      ¬ st.processed.contains c = true ∧
      (primaryTextStep st part).imgIdx = st.imgIdx := by
  by_cases h1 : pyStrip part ≠ "" ∧ isValidTextContent (pyStrip part) st.processed = true
  · cases hc : cleanTextContent (pyStrip part) with
    | none => left; simp [primaryTextStep, h1, hc]
    | some c =>
        by_cases h2a : c = ""
        · left; simp [primaryTextStep, h1, hc, h2a]
        · by_cases h2b : st.processed.contains c = true
          · have hm : c ∈ st.processed := List.mem_of_elem_eq_true h2b
            left; simp [primaryTextStep, h1, hc, h2a, hm]
          · have hm : c ∉ st.processed := fun hm => h2b (List.elem_eq_true_of_mem hm)
            right
            refine ⟨c, ?_, ?_, h2b, ?_⟩ <;> simp [primaryTextStep, h1, hc, h2a, hm]
  · left; simp [primaryTextStep, h1]

/-- The image slot either leaves the state unchanged or appends the
element produced by `tryEmitTiebaImg` for some input image. -/
theorem primaryImgStep_cases (imgs : List Html) (st : ExtractSt) :
    primaryImgStep imgs st = st ∨
    ∃ e, (primaryImgStep imgs st).els = st.els ++ [e] ∧
      (primaryImgStep imgs st).processed = st.processed ∧
      (∃ img ∈ imgs, tryEmitTiebaImg img st.els = some e) := by
  cases hi : imgs[st.imgIdx]? with
  | none => left; simp [primaryImgStep, hi]
  | some img =>
      cases ht : tryEmitTiebaImg img st.els with
      | none => left; simp [primaryImgStep, hi, ht]
      | some e =>
          right
          refine ⟨e, ?_, ?_, img, List.getElem?_mem hi, ht⟩ <;>
            simp [primaryImgStep, hi, ht]
/-- An emitted image element carries a source that is not yet present
in the accumulated elements. -/
theorem tryEmitTiebaImg_some {img : Html} {els : List ContentEl} {e : ContentEl}
    (h : tryEmitTiebaImg img els = some e) :
    ∃ src, e = .imageEl src (img.getAttrD "alt") (img.getAttrD "title") ∧
      hasImgWithSrc els src = false := by
  unfold tryEmitTiebaImg at h
  cases hs : tiebaImgSrc img with
  | none => rw [hs] at h; simp at h
  | some raw =>
      rw [hs] at h
      dsimp only at h
      split_ifs at h with h1 h2
      exact ⟨resolveTiebaUrl raw, (Option.some.inj h).symm, Bool.not_eq_true _ ▸ h2⟩

/-- The element walk either leaves the state unchanged, appends one
fresh text element, or appends one `tryEmitTiebaImg` result. -/
theorem elemWalkStep_cases (st : List ContentEl × List String) (node : Html) :
    elemWalkStep st node = st ∨
    (∃ c tg, elemWalkStep st node = (st.1 ++ [.textEl c tg], st.2 ++ [c]) ∧
      st.2.contains c = false) ∨
    (∃ e, elemWalkStep st node = (st.1 ++ [e], st.2) ∧
      ∃ img, tryEmitTiebaImg img st.1 = some e) := by
  unfold elemWalkStep
  by_cases himg : node.nameOf == some "img"
  · rw [if_pos himg]
    cases ht : tryEmitTiebaImg node st.1 with
    | none => left; rfl
    | some e => right; right; exact ⟨e, rfl, node, ht⟩
  · rw [if_neg himg]
    by_cases hname : node.nameOf == some "p" || node.nameOf == some "div" ||
        node.nameOf == some "span"
    · rw [if_pos hname]
      by_cases hfi : ¬ (findAllImgs node).isEmpty
      · left; rw [if_pos hfi]
      · rw [if_neg hfi]
        by_cases hv : isValidTextContent (getTextStripJoin node) st.2 = true
        · rw [if_pos hv]
          cases hc : cleanTextContent (getTextStripJoin node) with
          | none => left; rfl
          | some c =>
              by_cases hc2 : c ≠ "" ∧ ¬ st.2.contains c = true
              · right; left
                refine ⟨c, (node.nameOf).getD "", ?_, ?_⟩
                · simp only [hc]; rw [if_pos hc2]
                · simpa using hc2.2
              · left; simp only [hc]; rw [if_neg hc2]
        · left; rw [if_neg hv]
    · left; rw [if_neg hname]

/-- A sentence-split step either leaves the state unchanged or appends
one fresh text element. -/
theorem sentenceStep_cases (st : List ContentEl × List String) (s0 : String) :
    sentenceStep st s0 = st ∨
    ∃ c, sentenceStep st s0 = (st.1 ++ [.textEl c "p"], st.2 ++ [c]) ∧
      st.2.contains c = false := by
  unfold sentenceStep
  dsimp only
  by_cases h1 : pyStrip s0 ≠ "" ∧ (pyStrip s0).length > 5
  · rw [if_pos h1]
    by_cases hv : isValidTextContent
        (if endsWithAny (pyStrip s0) terminalPunct = true then pyStrip s0
         else pyStrip s0 ++ "。") st.2 = true
    · rw [if_pos hv]
      cases hc : cleanTextContent
          (if endsWithAny (pyStrip s0) terminalPunct = true then pyStrip s0
           else pyStrip s0 ++ "。") with
      | none => left; rfl
      | some c =>
          by_cases hc2 : c ≠ "" ∧ ¬ st.2.contains c = true
          · right
            refine ⟨c, ?_, by simpa using hc2.2⟩
            dsimp only
            rw [if_pos hc2]
          · left; dsimp only; rw [if_neg hc2]
    · left; rw [if_neg hv]
  · left; rw [if_neg h1]

/-- A liberal-walk step either leaves the state unchanged or appends
one fresh text element. -/
theorem liberalStep_cases (st : List ContentEl × List String) (s0 : String) :
    liberalStep st s0 = st ∨
    ∃ c, liberalStep st s0 = (st.1 ++ [.textEl c "text"], st.2 ++ [c]) ∧
      st.2.contains c = false := by
  unfold liberalStep
  dsimp only
  by_cases h1 : pyStrip s0 ≠ "" ∧ (pyStrip s0).length > 3
  · rw [if_pos h1]
    by_cases h2 : ["script", "style", "noscript"].any
        (fun p => substrOf p (pyLower (pyStrip s0))) = true
    · left; rw [if_pos h2]
    · rw [if_neg h2]
      cases hc : cleanTextContent (pyStrip s0) with
      | none => left; rfl
      | some c =>
          by_cases hc2 : c ≠ "" ∧ ¬ st.2.contains c = true ∧ c.length > 3
          · right
            refine ⟨c, ?_, by simpa using hc2.2.1⟩
            dsimp only
            rw [if_pos hc2]
          · left; dsimp only; rw [if_neg hc2]
  · left; rw [if_neg h1]

/-- A primary-loop iteration fixes the state or strictly grows the
element list. -/
theorem primaryStep_els_cases (imgs : List Html) (st : ExtractSt) (part : String) :
    primaryStep imgs st part = st ∨
    st.els.length < (primaryStep imgs st part).els.length := by
  have himono : ∀ st' : ExtractSt,
      st'.els.length ≤ (primaryImgStep imgs st').els.length := by
    intro st'
    rcases primaryImgStep_cases imgs st' with he | ⟨e, h1, _, _⟩
    · rw [he]
    · rw [h1]; simp
  rcases primaryTextStep_cases st part with he | ⟨c, h1, h2, h3, h4⟩
  · unfold primaryStep
    rw [he]
    rcases primaryImgStep_cases imgs st with he2 | ⟨e, h1, _, _⟩
    · left; exact he2
    · right; rw [h1]; simp
  · right
    unfold primaryStep
    calc st.els.length < (primaryTextStep st part).els.length := by rw [h1]; simp
      _ ≤ _ := himono _

/-- The primary loop never shrinks the element list. -/
theorem primaryFold_mono (imgs : List Html) :
    ∀ (parts : List String) (st : ExtractSt),
      st.els.length ≤ (parts.foldl (primaryStep imgs) st).els.length := by
  intro parts
  induction parts with
  | nil => intro st; simp
  | cons p rest ih =>
      intro st
      rw [List.foldl_cons]
      rcases primaryStep_els_cases imgs st p with he | hlt
      · rw [he]; exact ih st
      · exact hlt.le.trans (ih _)

/-- If the primary loop added nothing, it changed nothing. -/
theorem primaryFold_fix (imgs : List Html) :
    ∀ (parts : List String) (st : ExtractSt),
      (parts.foldl (primaryStep imgs) st).els.length = st.els.length →
      parts.foldl (primaryStep imgs) st = st := by
  intro parts
  induction parts with
  | nil => intro st _; rfl
  | cons p rest ih =>
      intro st h
      rw [List.foldl_cons] at h ⊢
      rcases primaryStep_els_cases imgs st p with he | hlt
      · rw [he] at h ⊢; exact ih st h
      · exfalso
        have := primaryFold_mono imgs rest (primaryStep imgs st p)
        omega

/-- A fold whose step fixes or strictly grows the element list never
shrinks it. -/
theorem pairFold_mono {α : Type} (step : List ContentEl × List String → α →
      List ContentEl × List String)
    (hcases : ∀ st a, step st a = st ∨ st.1.length < (step st a).1.length) :
    ∀ (l : List α) (st : List ContentEl × List String),
      st.1.length ≤ (l.foldl step st).1.length := by
  intro l
  induction l with
  | nil => intro st; simp
  | cons a rest ih =>
      intro st
      rw [List.foldl_cons]
      rcases hcases st a with he | hlt
      · rw [he]; exact ih st
      · exact hlt.le.trans (ih _)

/-- A fold whose step fixes or strictly grows the element list is the
identity when it added nothing. -/
theorem pairFold_fix {α : Type} (step : List ContentEl × List String → α →
      List ContentEl × List String)
    (hcases : ∀ st a, step st a = st ∨ st.1.length < (step st a).1.length) :
    ∀ (l : List α) (st : List ContentEl × List String),
      (l.foldl step st).1.length = st.1.length →
      l.foldl step st = st := by
  intro l
  induction l with
  | nil => intro st _; rfl
  | cons a rest ih =>
      intro st h
      rw [List.foldl_cons] at h ⊢
      rcases hcases st a with he | hlt
      · rw [he] at h ⊢; exact ih st h
      · exfalso
        have := pairFold_mono step hcases rest (step st a)
        omega

/-- The element walk fixes the state or strictly grows the element
list. -/
theorem elemWalkStep_els_cases (st : List ContentEl × List String) (node : Html) :
    elemWalkStep st node = st ∨ st.1.length < (elemWalkStep st node).1.length := by
  rcases elemWalkStep_cases st node with he | ⟨c, tg, h1, _⟩ | ⟨e, h1, _⟩
  · left; exact he
  · right; rw [h1]; simp
  · right; rw [h1]; simp

/-- The sentence split fixes the state or strictly grows the element
list. -/
theorem sentenceStep_els_cases (st : List ContentEl × List String) (s0 : String) :
    sentenceStep st s0 = st ∨ st.1.length < (sentenceStep st s0).1.length := by
  rcases sentenceStep_cases st s0 with he | ⟨c, h1, _⟩
  · left; exact he
  · right; rw [h1]; simp

/-- The liberal walk fixes the state or strictly grows the element
list. -/
theorem liberalStep_els_cases (st : List ContentEl × List String) (s0 : String) :
    liberalStep st s0 = st ∨ st.1.length < (liberalStep st s0).1.length := by
  rcases liberalStep_cases st s0 with he | ⟨c, h1, _⟩
  · left; exact he
  · right; rw [h1]; simp

/-- The trailing image loop only appends. -/
theorem emitRemaining_prefix : ∀ (l : List Html) (els : List ContentEl),
    ∃ suf, emitRemaining els l = els ++ suf := by
  intro l
  induction l with
  | nil => intro els; exact ⟨[], by simp [emitRemaining]⟩
  | cons img rest ih =>
      intro els
      rw [emitRemaining]
      cases ht : tryEmitTiebaImg img els with
      | some e =>
          obtain ⟨suf, hs⟩ := ih (els ++ [e])
          exact ⟨[e] ++ suf, by dsimp only; rw [hs, List.append_assoc]⟩
      | none => exact ih els

/-- An empty primary extraction leaves `processed_texts` untouched. -/
theorem primaryExtract_empty (ce : Html) (p0 : List String)
    (h : (primaryExtract ce p0).els = []) :
    (primaryExtract ce p0).processed = p0 := by
  unfold primaryExtract at h ⊢
  dsimp only at h ⊢
  obtain ⟨suf, hs⟩ := emitRemaining_prefix
    ((findAllImgs ce).drop ((textParts ce).foldl (primaryStep (findAllImgs ce))
      ⟨[], p0, 0⟩).imgIdx)
    ((textParts ce).foldl (primaryStep (findAllImgs ce)) ⟨[], p0, 0⟩).els
  rw [hs] at h
  have hel := (List.append_eq_nil.mp h).1
  have hfix := primaryFold_fix (findAllImgs ce) (textParts ce) ⟨[], p0, 0⟩
    (by rw [hel])
  rw [hfix]

/-- An empty element walk leaves `processed_texts` untouched. -/
theorem elemWalkExtract_empty (ce : Html) (p0 : List String)
    (h : (elemWalkExtract ce p0).1 = []) :
    elemWalkExtract ce p0 = ([], p0) := by
  unfold elemWalkExtract at h ⊢
  exact pairFold_fix elemWalkStep elemWalkStep_els_cases _ _ (by rw [h])

/-- An empty sentence split leaves `processed_texts` untouched. -/
theorem sentenceSplitExtract_empty (ce : Html) (p0 : List String)
    (h : (sentenceSplitExtract ce p0).1 = []) :
    sentenceSplitExtract ce p0 = ([], p0) := by
  unfold sentenceSplitExtract at h ⊢
  dsimp only at h ⊢
  by_cases hc : getTextSpaceSep ce ≠ "" ∧ (getTextSpaceSep ce).length > 20
  · rw [if_pos hc] at h ⊢
    exact pairFold_fix sentenceStep sentenceStep_els_cases _ _ (by rw [h])
  · rw [if_neg hc]

/-- C5: the extraction result is the output of exactly one strategy,
each strategy running only when every earlier one produced zero nodes
(primary break-segmented walk, element walk, sentence split, liberal
text walk); and on the concrete content root with no walkable text or
images but sentence-ending punctuation in its flattened text, the
result is the sentence-split output, not the primary, element-walk or
liberal output. -/
theorem c5_cascade :
    (∀ postElem : Html,
      extractPostContentEls postElem =
        if (primaryEls postElem).isEmpty then
          if (elemWalkEls postElem).isEmpty then
            if (sentenceEls postElem).isEmpty then liberalEls postElem
            else sentenceEls postElem
          else elemWalkEls postElem
        else primaryEls postElem) ∧
    primaryEls c5post = [] ∧ elemWalkEls c5post = [] ∧
    sentenceEls c5post = [ContentEl.textEl "abcdefghi。" "p"] ∧
    sentenceEls c5post ≠ [] ∧
    extractPostContentEls c5post = sentenceEls c5post := by
  refine ⟨?_, by decide, by decide, by decide, by decide, by decide⟩
  intro postElem
  unfold extractPostContentEls primaryEls elemWalkEls sentenceEls liberalEls
    fallbackExtract
  dsimp only
  by_cases h1 : ((primaryExtract (selectContentElem postElem) []).els).isEmpty
  · have hp : (primaryExtract (selectContentElem postElem) []).els = [] :=
      List.isEmpty_iff.mp h1
    have hproc := primaryExtract_empty (selectContentElem postElem) [] hp
    rw [if_pos h1, hproc]
    by_cases h2 : ((elemWalkExtract (selectContentElem postElem) []).1).isEmpty
    · have hw := elemWalkExtract_empty (selectContentElem postElem) []
        (List.isEmpty_iff.mp h2)
      rw [if_pos h2, hw]
      dsimp only
      by_cases h3 : ((sentenceSplitExtract (selectContentElem postElem) []).1).isEmpty
      · have hs := sentenceSplitExtract_empty (selectContentElem postElem) []
          (List.isEmpty_iff.mp h3)
        rw [if_pos h3, hs]
        simp [h1]
      · rw [if_neg h3]
        simp [h1, h3]
    · rw [if_neg h2]
      simp [h1, h2]
  · rw [if_neg h1]
    simp [h1]

/-- A `contains = false` witness refutes membership. -/
theorem contains_false_not_mem {p : List String} {c : String}
    (hc : p.contains c = false) : c ∉ p := by
  intro hm
  have h2 : p.contains c = true := List.elem_eq_true_of_mem hm
  rw [hc] at h2
  exact Bool.false_ne_true h2

/-- Text contents distribute over append. -/
theorem textsOf_append (l1 l2 : List ContentEl) :
    textsOf (l1 ++ l2) = textsOf l1 ++ textsOf l2 := by
  simp [textsOf]

/-- Image sources distribute over append. -/
theorem imgSrcsOf_append (l1 l2 : List ContentEl) :
    imgSrcsOf (l1 ++ l2) = imgSrcsOf l1 ++ imgSrcsOf l2 := by
  simp [imgSrcsOf]

/-- A failed duplicate test means the source differs from every
already-emitted image source. -/
theorem hasImgWithSrc_false {els : List ContentEl} {s : String}
    (h : hasImgWithSrc els s = false) : ∀ x ∈ imgSrcsOf els, x ≠ s := by
  intro x hx hxs
  subst hxs
  obtain ⟨e, he, hex⟩ := List.mem_filterMap.mp hx
  have htrue : hasImgWithSrc els x = true := by
    cases e with
    | textEl c t => simp at hex
    | imageEl s' a t =>
        have hs' : s' = x := by simpa using hex
        subst hs'
        exact List.any_eq_true.mpr ⟨_, he, by simp⟩
  rw [h] at htrue
  exact Bool.false_ne_true htrue

/-- Appending a fresh text keeps the invariant. -/
theorem StOk_append_text {els : List ContentEl} {p : List String} {c tg : String}
    (h : StOk els p) (hc : p.contains c = false) :
    StOk (els ++ [.textEl c tg]) (p ++ [c]) := by
  obtain ⟨ht, hi, hsub⟩ := h
  have hcm : c ∉ p := contains_false_not_mem hc
  refine ⟨?_, ?_, ?_⟩
  · rw [textsOf_append]
    rw [List.pairwise_append]
    refine ⟨ht, by simp [textsOf], ?_⟩
    intro x hx y hy
    have hxp := hsub x hx
    obtain rfl : y = c := by simpa [textsOf] using hy
    exact fun hxy => hcm (hxy ▸ List.mem_of_elem_eq_true hxp)
  · rw [imgSrcsOf_append]
    simpa [imgSrcsOf] using hi
  · intro x hx
    rw [textsOf_append] at hx
    rcases List.mem_append.mp hx with hx | hx
    · exact List.elem_eq_true_of_mem (List.mem_append_left _
        (List.mem_of_elem_eq_true (hsub x hx)))
    · obtain rfl : x = c := by simpa [textsOf] using hx
      exact List.elem_eq_true_of_mem (List.mem_append_right _ (by simp))

/-- Appending an image with a fresh source keeps the invariant. -/
theorem StOk_append_img {els : List ContentEl} {p : List String} {s a t : String}
    (h : StOk els p) (hs : hasImgWithSrc els s = false) :
    StOk (els ++ [.imageEl s a t]) p := by
  obtain ⟨ht, hi, hsub⟩ := h
  refine ⟨?_, ?_, ?_⟩
  · rw [textsOf_append]
    simpa [textsOf] using ht
  · rw [imgSrcsOf_append]
    rw [List.pairwise_append]
    refine ⟨hi, by simp [imgSrcsOf], ?_⟩
    intro x hx y hy
    obtain rfl : y = s := by simpa [imgSrcsOf] using hy
    exact hasImgWithSrc_false hs x hx
  · intro x hx
    rw [textsOf_append] at hx
    rcases List.mem_append.mp hx with hx | hx
    · exact hsub x hx
    · simp [textsOf] at hx

/-- The primary text phase preserves the invariant. -/
theorem primaryTextStep_StOk {st : ExtractSt} (part : String)
    (h : StOk st.els st.processed) :
    StOk (primaryTextStep st part).els (primaryTextStep st part).processed := by
  rcases primaryTextStep_cases st part with he | ⟨c, h1, h2, h3, _⟩
  · rw [he]; exact h
  · rw [h1, h2]
    exact StOk_append_text h (Bool.not_eq_true _ ▸ h3)

/-- The primary image slot preserves the invariant. -/
theorem primaryImgStep_StOk (imgs : List Html) {st : ExtractSt}
    (h : StOk st.els st.processed) :
    StOk (primaryImgStep imgs st).els (primaryImgStep imgs st).processed := by
  rcases primaryImgStep_cases imgs st with he | ⟨e, h1, h2, img, _, ht⟩
  · rw [he]; exact h
  · rw [h1, h2]
    obtain ⟨src, rfl, hfresh⟩ := tryEmitTiebaImg_some ht
    exact StOk_append_img h hfresh

/-- The whole primary loop preserves the invariant. -/
theorem primaryFold_StOk (imgs : List Html) :
    ∀ (parts : List String) (st : ExtractSt), StOk st.els st.processed →
      StOk (parts.foldl (primaryStep imgs) st).els
        (parts.foldl (primaryStep imgs) st).processed := by
  intro parts
  induction parts with
  | nil => intro st h; exact h
  | cons p rest ih =>
      intro st h
      rw [List.foldl_cons]
      exact ih _ (primaryImgStep_StOk imgs (primaryTextStep_StOk p h))

/-- The trailing image loop preserves the invariant. -/
theorem emitRemaining_StOk {p : List String} :
    ∀ (l : List Html) (els : List ContentEl), StOk els p →
      StOk (emitRemaining els l) p := by
  intro l
  induction l with
  | nil => intro els h; exact h
  | cons img rest ih =>
      intro els h
      rw [emitRemaining]
      cases ht : tryEmitTiebaImg img els with
      | none => exact ih els h
      | some e =>
          obtain ⟨src, rfl, hfresh⟩ := tryEmitTiebaImg_some ht
          exact ih _ (StOk_append_img h hfresh)

/-- The primary strategy satisfies the invariant. -/
theorem primaryExtract_StOk (ce : Html) (p0 : List String) :
    StOk (primaryExtract ce p0).els (primaryExtract ce p0).processed := by
  unfold primaryExtract
  dsimp only
  exact emitRemaining_StOk _ _
    (primaryFold_StOk (findAllImgs ce) (textParts ce) ⟨[], p0, 0⟩
      ⟨by simp [textsOf], by simp [imgSrcsOf], by simp [textsOf]⟩)

/-- The element walk step preserves the invariant. -/
theorem elemWalkStep_StOk {st : List ContentEl × List String} (node : Html)
    (h : StOk st.1 st.2) :
    StOk (elemWalkStep st node).1 (elemWalkStep st node).2 := by
  rcases elemWalkStep_cases st node with he | ⟨c, tg, h1, h2⟩ | ⟨e, h1, img, ht⟩
  · rw [he]; exact h
  · rw [h1]
    exact StOk_append_text h h2
  · rw [h1]
    obtain ⟨src, rfl, hfresh⟩ := tryEmitTiebaImg_some ht
    exact StOk_append_img h hfresh

/-- The sentence step preserves the invariant. -/
theorem sentenceStep_StOk {st : List ContentEl × List String} (s0 : String)
    (h : StOk st.1 st.2) :
    StOk (sentenceStep st s0).1 (sentenceStep st s0).2 := by
  rcases sentenceStep_cases st s0 with he | ⟨c, h1, h2⟩
  · rw [he]; exact h
  · rw [h1]; exact StOk_append_text h h2

/-- The liberal step preserves the invariant. -/
theorem liberalStep_StOk {st : List ContentEl × List String} (s0 : String)
    (h : StOk st.1 st.2) :
    StOk (liberalStep st s0).1 (liberalStep st s0).2 := by
  rcases liberalStep_cases st s0 with he | ⟨c, h1, h2⟩
  · rw [he]; exact h
  · rw [h1]; exact StOk_append_text h h2

/-- A fold of invariant-preserving steps preserves the invariant. -/
theorem pairFold_StOk {α : Type} (step : List ContentEl × List String → α →
      List ContentEl × List String)
    (hstep : ∀ (st : List ContentEl × List String) (a : α), StOk st.1 st.2 →
      StOk (step st a).1 (step st a).2) :
    ∀ (l : List α) (st : List ContentEl × List String), StOk st.1 st.2 →
      StOk (l.foldl step st).1 (l.foldl step st).2 := by
  intro l
  induction l with
  | nil => intro st h; exact h
  | cons a rest ih =>
      intro st h
      rw [List.foldl_cons]
      exact ih _ (hstep st a h)

/-- A WeChat walk step fixes the state, appends one fresh text, or
appends one image with a fresh resolved source. -/
theorem wxStep_cases (st : WxSt) (node : Html) :
    wxStep st node = st ∨
    (∃ c tg, (wxStep st node).els = st.els ++ [.textEl c tg st.els.length] ∧
      (wxStep st node).processed = st.processed ++ [c] ∧
      st.processed.contains c = false) ∨
    (∃ s a t, (wxStep st node).els = st.els ++ [.imageEl s a t st.els.length] ∧
      (wxStep st node).processed = st.processed ∧
      wxHasImgSrc st.els s = false) := by
  unfold wxStep
  by_cases himg : node.nameOf == some "img"
  · rw [if_pos himg]
    cases hsrc : firstNonEmpty [node.getAttr "src", node.getAttr "data-src"] with
    | none => left; rfl
    | some raw =>
        dsimp only
        by_cases hdup : wxHasImgSrc st.els (resolveWechatUrl raw) = true
        · left; rw [if_pos hdup]
        · right; right
          refine ⟨resolveWechatUrl raw, node.getAttrD "alt", node.getAttrD "title",
            ?_, ?_, Bool.not_eq_true _ ▸ hdup⟩ <;> rw [if_neg hdup]
  · rw [if_neg himg]
    by_cases hname : wxTextNames.any (fun n => node.nameOf == some n) = true
    · rw [if_pos hname]
      dsimp only
      by_cases hblock : (node.descendants.any fun d =>
          wxBlockNames.any (fun n => d.nameOf == some n)) = true ∧
          (node.nameOf == some "div" || node.nameOf == some "section") = true
      · left; rw [if_pos hblock]
      · rw [if_neg hblock]
        by_cases hfi : ¬ (findAllImgs node).isEmpty
        · left; rw [if_pos hfi]
        · rw [if_neg hfi]
          by_cases hcond : pyStrip (getTextRaw node) ≠ "" ∧
              (pyStrip (getTextRaw node)).length > 10 ∧
              ¬ st.processed.contains (pyStrip (getTextRaw node)) = true ∧
              ¬ pyStartsWith (pyStrip (getTextRaw node)) "http" = true ∧
              ¬ substrOf "阅读原文" (pyStrip (getTextRaw node)) = true ∧
              ¬ substrOf "点击查看" (pyStrip (getTextRaw node)) = true
          · rw [if_pos hcond]
            by_cases hsub : (st.processed.any fun et =>
                et.length > (pyStrip (getTextRaw node)).length &&
                  (substrOf (pyStrip (getTextRaw node)) et ||
                    substrOf et (pyStrip (getTextRaw node)))) = true
            · left; rw [if_pos hsub]
            · right; left
              refine ⟨pyStrip (getTextRaw node), (node.nameOf).getD "",
                ?_, ?_, Bool.not_eq_true _ ▸ hcond.2.2.1⟩ <;> rw [if_neg hsub]
          · left; rw [if_neg hcond]
    · left; rw [if_neg hname]


/-- WeChat text contents distribute over append. -/
theorem wxTextsOf_append (l1 l2 : List WxEl) :
    wxTextsOf (l1 ++ l2) = wxTextsOf l1 ++ wxTextsOf l2 := by
  simp [wxTextsOf]

/-- WeChat image sources distribute over append. -/
theorem wxImgSrcsOf_append (l1 l2 : List WxEl) :
    wxImgSrcsOf (l1 ++ l2) = wxImgSrcsOf l1 ++ wxImgSrcsOf l2 := by
  simp [wxImgSrcsOf]

/-- The WeChat duplicate test refutes source equality. -/
theorem wxHasImgSrc_false {els : List WxEl} {s : String}
    (h : wxHasImgSrc els s = false) : ∀ x ∈ wxImgSrcsOf els, x ≠ s := by
  intro x hx hxs
  subst hxs
  obtain ⟨e, he, hex⟩ := List.mem_filterMap.mp hx
  have htrue : wxHasImgSrc els x = true := by
    cases e with
    | textEl c t o => simp at hex
    | imageEl s' a t o =>
        have hs' : s' = x := by simpa using hex
        subst hs'
        exact List.any_eq_true.mpr ⟨_, he, by simp⟩
  rw [h] at htrue
  exact Bool.false_ne_true htrue

/-- Appending a fresh WeChat text keeps the invariant. -/
theorem WxOk_append_text {els : List WxEl} {p : List String} {c tg : String}
    {o : Nat} (h : WxOk els p) (hc : p.contains c = false) :
    WxOk (els ++ [.textEl c tg o]) (p ++ [c]) := by
  obtain ⟨ht, hi, hsub⟩ := h
  have hcm : c ∉ p := contains_false_not_mem hc
  refine ⟨?_, ?_, ?_⟩
  · rw [wxTextsOf_append, List.pairwise_append]
    refine ⟨ht, by simp [wxTextsOf], ?_⟩
    intro x hx y hy
    have hxp := hsub x hx
    obtain rfl : y = c := by simpa [wxTextsOf] using hy
    exact fun hxy => hcm (hxy ▸ List.mem_of_elem_eq_true hxp)
  · rw [wxImgSrcsOf_append]
    simpa [wxImgSrcsOf] using hi
  · intro x hx
    rw [wxTextsOf_append] at hx
    rcases List.mem_append.mp hx with hx | hx
    · exact List.elem_eq_true_of_mem (List.mem_append_left _
        (List.mem_of_elem_eq_true (hsub x hx)))
    · obtain rfl : x = c := by simpa [wxTextsOf] using hx
      exact List.elem_eq_true_of_mem (List.mem_append_right _ (by simp))

/-- Appending a fresh-source WeChat image keeps the invariant. -/
theorem WxOk_append_img {els : List WxEl} {p : List String} {s a t : String}
    {o : Nat} (h : WxOk els p) (hs : wxHasImgSrc els s = false) :
    WxOk (els ++ [.imageEl s a t o]) p := by
  obtain ⟨ht, hi, hsub⟩ := h
  refine ⟨?_, ?_, ?_⟩
  · rw [wxTextsOf_append]
    simpa [wxTextsOf] using ht
  · rw [wxImgSrcsOf_append, List.pairwise_append]
    refine ⟨hi, by simp [wxImgSrcsOf], ?_⟩
    intro x hx y hy
    obtain rfl : y = s := by simpa [wxImgSrcsOf] using hy
    exact wxHasImgSrc_false hs x hx
  · intro x hx
    rw [wxTextsOf_append] at hx
    rcases List.mem_append.mp hx with hx | hx
    · exact hsub x hx
    · simp [wxTextsOf] at hx

/-- The WeChat walk preserves the invariant. -/
theorem wxFold_WxOk (l : List Html) :
    ∀ st : WxSt, WxOk st.els st.processed →
      WxOk (l.foldl wxStep st).els (l.foldl wxStep st).processed := by
  induction l with
  | nil => intro st h; exact h
  | cons n rest ih =>
      intro st h
      rw [List.foldl_cons]
      apply ih
      rcases wxStep_cases st n with he | ⟨c, tg, h1, h2, h3⟩ | ⟨s, a, t, h1, h2, h3⟩
      · rw [he]; exact h
      · rw [h1, h2]; exact WxOk_append_text h h3
      · rw [h1, h2]; exact WxOk_append_img h h3

/-- The WeChat content walk output satisfies the invariant (the sort
by order is the identity). -/
theorem wxContentWalk_WxOk (ce : Html) :
    ∃ p, WxOk (wxContentWalk ce).els p := by
  have h := wxFold_orders (elemDescendants ce) ⟨[], [], []⟩ (by simp)
  have hle : ((elemDescendants ce).foldl wxStep ⟨[], [], []⟩).els.Pairwise
      (fun a b => a.order ≤ b.order) := by
    rw [← List.pairwise_map (f := WxEl.order) (R := (· ≤ ·)), h]
    exact List.pairwise_le_range _
  refine ⟨((elemDescendants ce).foldl wxStep ⟨[], [], []⟩).processed, ?_⟩
  unfold wxContentWalk
  dsimp only
  rw [sortByOrder_of_sorted _ hle]
  exact wxFold_WxOk (elemDescendants ce) ⟨[], [], []⟩
    ⟨by simp [wxTextsOf], by simp [wxImgSrcsOf], by simp [wxTextsOf]⟩

/-- The element-walk strategy satisfies the invariant. -/
theorem elemWalkExtract_StOk (ce : Html) (p0 : List String) :
    StOk (elemWalkExtract ce p0).1 (elemWalkExtract ce p0).2 := by
  unfold elemWalkExtract
  exact pairFold_StOk elemWalkStep (fun st a => elemWalkStep_StOk a) _ _
    ⟨by simp [textsOf], by simp [imgSrcsOf], by simp [textsOf]⟩

/-- The sentence-split strategy satisfies the invariant. -/
theorem sentenceSplitExtract_StOk (ce : Html) (p0 : List String) :
    StOk (sentenceSplitExtract ce p0).1 (sentenceSplitExtract ce p0).2 := by
  unfold sentenceSplitExtract
  dsimp only
  split
  · exact pairFold_StOk sentenceStep (fun st a => sentenceStep_StOk a) _ _
      ⟨by simp [textsOf], by simp [imgSrcsOf], by simp [textsOf]⟩
  · exact ⟨by simp [textsOf], by simp [imgSrcsOf], by simp [textsOf]⟩

/-- The liberal strategy satisfies the invariant. -/
theorem liberalExtract_StOk (ce : Html) (p0 : List String) :
    StOk (liberalExtract ce p0).1 (liberalExtract ce p0).2 := by
  unfold liberalExtract
  exact pairFold_StOk liberalStep (fun st a => liberalStep_StOk a) _ _
    ⟨by simp [textsOf], by simp [imgSrcsOf], by simp [textsOf]⟩

/-- Whatever strategy wins, the returned elements satisfy the
de-duplication invariant for some seen-set. -/
theorem extractPostContentEls_StOk (postElem : Html) :
    ∃ p, StOk (extractPostContentEls postElem) p := by
  unfold extractPostContentEls
  dsimp only
  by_cases h1 : ((primaryExtract (selectContentElem postElem) []).els).isEmpty
  · rw [if_pos h1]
    by_cases h2 : ((elemWalkExtract (selectContentElem postElem)
        (primaryExtract (selectContentElem postElem) []).processed).1).isEmpty
    · rw [if_pos h2]
      unfold fallbackExtract
      dsimp only
      split
      · exact ⟨_, liberalExtract_StOk _ _⟩
      · exact ⟨_, sentenceSplitExtract_StOk _ _⟩
    · rw [if_neg h2]
      exact ⟨_, elemWalkExtract_StOk _ _⟩
  · rw [if_neg h1]
    dsimp only
    by_cases h3 : ((primaryExtract (selectContentElem postElem) []).els).isEmpty
    · exact absurd h3 h1
    · rw [if_neg h3]
      exact ⟨_, primaryExtract_StOk _ _⟩

/-- C4: within one extraction pass no two text nodes share their
normalized content and no two image nodes share their resolved source,
for the Tieba walker (all four strategy tiers) and the WeChat walker
alike; the concrete document repeating one image and one text block
yields exactly one image node and one copy of the text. -/
theorem c4_dedup :
    (∀ postElem : Html,
      (textsOf (extractPostContentEls postElem)).Pairwise (· ≠ ·) ∧
      (imgSrcsOf (extractPostContentEls postElem)).Pairwise (· ≠ ·)) ∧
    (∀ doc : Html,
      (wxTextsOf (wxParseHtml doc).contentElements).Pairwise (· ≠ ·) ∧
      (wxImgSrcsOf (wxParseHtml doc).contentElements).Pairwise (· ≠ ·)) ∧
    extractPostContentEls c4post =
      [.textEl "第一段内容哈哈" "text",
       .imageEl "https://imgsrc.baidu.com/pic/a.jpg" "" "",
       .textEl "第二段内容哈哈" "text"] ∧
    imgSrcsOf (extractPostContentEls c4post) =
      ["https://imgsrc.baidu.com/pic/a.jpg"] ∧
    textsOf (extractPostContentEls c4post) =
      ["第一段内容哈哈", "第二段内容哈哈"] := by
  refine ⟨?_, ?_, by decide, by decide, by decide⟩
  · intro postElem
    obtain ⟨p, h1, h2, _⟩ := extractPostContentEls_StOk postElem
    exact ⟨h1, h2⟩
  · intro doc
    unfold wxParseHtml
    dsimp only
    split
    · obtain ⟨p, h1, h2, _⟩ := wxContentWalk_WxOk _
      exact ⟨h1, h2⟩
    · exact ⟨by simp [wxTextsOf], by simp [wxImgSrcsOf]⟩

/-- C7: the claim says the result carries a `strategyUsed` tag drawn
from {Primary, SentenceSplit, LiberalTextWalk}; in the code two
documents resolved by different cascade strategies (primary walk
versus sentence split) produce results whose only parsing tag,
`method`, is the identical constant `'html_parsing'`, which is not one
of the claimed values — no field records the strategy. -/
theorem c7_strategy_tag_counterexample :
    primaryEls (.elem "div" ["d_post_content"] [] [.text "正常的主帖文字内容。"]) ≠ [] ∧
    primaryEls (.elem "div" ["d_post_content"] []
      [.text "点击展开,查看完整图片。abcdefghi"]) = [] ∧
    elemWalkEls (.elem "div" ["d_post_content"] []
      [.text "点击展开,查看完整图片。abcdefghi"]) = [] ∧
    sentenceEls (.elem "div" ["d_post_content"] []
      [.text "点击展开,查看完整图片。abcdefghi"]) ≠ [] ∧
    (tiebaParseHtml c7docA "u").method = (tiebaParseHtml c7docB "u").method ∧
    (tiebaParseHtml c7docA "u").method = "html_parsing" ∧
    "html_parsing" ∉ ["Primary", "SentenceSplit", "LiberalTextWalk"] ∧
    (wxParseHtml c3doc).method = "html_parsing" := by
  refine ⟨by decide, by decide, by decide, by decide, by decide, by decide,
    by decide, by decide⟩

/-- C7 (amended): both parsers tag their results with the constant
`method = 'html_parsing'` (the browser path would write
`'browser_extraction'`), recording how the HTML was parsed; which
cascade strategy produced the nodes is not recorded anywhere in the
result. -/
theorem c7_strategy_tag_amended :
    (∀ (doc : Html) (url : String),
      (tiebaParseHtml doc url).method = "html_parsing") ∧
    (∀ doc : Html, (wxParseHtml doc).method = "html_parsing") :=
  ⟨fun _ _ => rfl, fun _ => rfl⟩

/-- Every input image with a nonempty source whose fetch returns 200
yields a stored record. -/
theorem downloadImagesAux_mem_of_ok {postId : String} {fetch : String → Option Nat}
    {rw : Bool} {wmOracle : String → Bool} :
    ∀ (l : List ContentEl) (k j : Nat) (src alt title : String),
      l[j]? = some (.imageEl src alt title) → src ≠ "" → fetch src = some 200 →
      ∃ d ∈ downloadImagesAux postId fetch rw wmOracle k l, d.originalUrl = src := by
  intro l
  induction l with
  | nil => intro k j src alt title h _ _; simp at h
  | cons img rest ih =>
      intro k j src alt title hget hsrc hfetch
      cases j with
      | zero =>
          obtain rfl : img = .imageEl src alt title := by simpa using hget
          rw [downloadImagesAux]
          have hout : downloadOutcome postId fetch rw wmOracle k
              (.imageEl src alt title) =
              some { originalUrl := src,
                     filename := "image_" ++ pad3 (k + 1) ++ extOf src,
                     imageUrl := "/tieba/images/" ++ postId ++ "/" ++
                       ("image_" ++ pad3 (k + 1) ++ extOf src),
                     alt, title,
                     watermarkRemoved :=
                       rw && wmOracle ("image_" ++ pad3 (k + 1) ++ extOf src) } := by
            simp [downloadOutcome, hsrc, hfetch]
          rw [hout]
          exact ⟨_, List.mem_cons_self _ _, rfl⟩
      | succ j' =>
          rw [downloadImagesAux]
          obtain ⟨d, hd, ho⟩ := ih (k + 1) j' src alt title (by simpa using hget)
            hsrc hfetch
          cases hout : downloadOutcome postId fetch rw wmOracle k img with
          | some d0 => exact ⟨d, List.mem_cons_of_mem _ hd, ho⟩
          | none => exact ⟨d, hd, ho⟩

/-- C8: per-image fetch failures never abort the batch or the scrape:
for every fetch oracle the route reports `success = true`, the
requested count (`total_images`) and materialized count
(`image_count`) separately, and `download_images` returns an asset for
every image that fetched with status 200. -/
theorem c8_partial_failure (doc : Html) (url uniqueId baseUrl : String)
    (fetch : String → Option Nat) (rw : Bool) (wmOracle : String → Bool) :
    (scrapeTiebaRoute doc url true uniqueId baseUrl fetch rw wmOracle).success = true ∧
    (scrapeTiebaRoute doc url true uniqueId baseUrl fetch rw wmOracle).totalImages =
      (tiebaParseHtml doc url).allImages.length ∧
    (scrapeTiebaRoute doc url true uniqueId baseUrl fetch rw wmOracle).imageCount =
      (downloadImages (tiebaParseHtml doc url).allImages uniqueId fetch rw
        wmOracle).length ∧
    ∀ (j : Nat) (src alt title : String),
      (tiebaParseHtml doc url).allImages[j]? = some (.imageEl src alt title) →
      src ≠ "" → fetch src = some 200 →
      ∃ d ∈ downloadImages (tiebaParseHtml doc url).allImages uniqueId fetch rw
          wmOracle, d.originalUrl = src := by
  refine ⟨rfl, rfl, ?_, ?_⟩
  · unfold scrapeTiebaRoute
    dsimp only
    by_cases h : ((tiebaParseHtml doc url).allImages).isEmpty
    · have he : (tiebaParseHtml doc url).allImages = [] := List.isEmpty_iff.mp h
      rw [if_neg (by simp [h])]
      simp [he, downloadImages, downloadImagesAux]
    · rw [if_pos (by simp [h])]
  · intro j src alt title hget hsrc hfetch
    exact downloadImagesAux_mem_of_ok _ 0 j src alt title hget hsrc hfetch

/-- C8 witness: the successful image of the concrete document is
materialized under an all-200 fetch oracle. -/
theorem c8_partial_failure_witness :
    ∃ d ∈ downloadImages (tiebaParseHtml c4post "u").allImages "uid"
        (fun _ => some 200) false (fun _ => false),
      d.originalUrl = "https://imgsrc.baidu.com/pic/a.jpg" :=
  (c8_partial_failure c4post "u" "uid" "b" (fun _ => some 200) false
    (fun _ => false)).2.2.2 0 "https://imgsrc.baidu.com/pic/a.jpg" "" ""
    (by decide) (by decide) rfl
